import Mathlib

/-!
Shallow embedding of the WebSocket progressive stress tester (src/main.py).

The program ramps the number of concurrent WebSocket connections across
batches, measures per-connection round-trip latency, applies a stop rule
based on a stability threshold, and finally classifies the batch history.

Network and scheduler behaviour (connect outcomes, echo round trips, when
the termination event is observed set) is abstracted into a `NetEnv` value
per worker; everything downstream of those observations is translated
directly from the Python source.  Python dicts with mode-dependent key sets
are rendered as structures with `Option` fields (`none` = key absent).
-/

set_option maxHeartbeats 1000000
set_option linter.unusedVariables false

namespace StressTest

/-- Outcome of one echo exchange (a `send` followed by an awaited `recv`
under `asyncio.wait_for`): the reply arrives after `rt` milliseconds, the
wait times out (`asyncio.TimeoutError`), or some other exception is raised. -/
inductive EchoOutcome where
  | ok (rt : ℚ)
  | timeout
  | err (e : String)
deriving DecidableEq

/-- Outcome of the initial `websockets.connect` call. -/
inductive ConnectOutcome where
  | ok (connectTime : ℚ)
  | fail (e : String)
deriving DecidableEq

/-- Abstract network/scheduling environment observed by one connection
worker: the connect outcome, the handshake echo outcome, the outcome of the
k-th keepalive exchange, how many loop-head checks of the termination event
return "unset" before the event is observed set (`iters`), and the
wall-clock duration measured when the worker returns. -/
structure NetEnv where
  connect : ConnectOutcome
  handshake : EchoOutcome
  keepalive : Nat → EchoOutcome
  iters : Nat
  duration : ℚ

/-- The result dict returned by `test_connection` (src/main.py:153-183).
The success dict carries all keys; the two failure dicts carry only
`id`, `batch`, `success`, `duration`, `error` — absent keys are `none`. -/
structure ConnectionResult where
  id : Nat
  batch : Nat
  success : Bool
  duration : ℚ
  connect_time : Option ℚ := none
  response_times : Option (List ℚ) := none
  avg_response : Option ℚ := none
  min_response : Option ℚ := none
  max_response : Option ℚ := none
  error : Option String := none
  keepalive_count : Option Nat := none
deriving DecidableEq

/-- Python `min(l)` for the non-empty lists the source applies it to,
with the source's `if l else 0` guard folded in (src/main.py:161-162, 237). -/
def listMin : List ℚ → ℚ
  | [] => 0
  | x :: xs => xs.foldl min x

/-- Python `max(l)` with the source's `if l else 0` guard folded in. -/
def listMax : List ℚ → ℚ
  | [] => 0
  | x :: xs => xs.foldl max x

/-- Python `sum(l)/len(l) if l else 0` (src/main.py:160, 236). -/
def listAvg (l : List ℚ) : ℚ :=
  if l.isEmpty then 0 else l.sum / l.length

/-- How the keepalive hold loop of `test_connection` ends
(src/main.py:137-150): the loop-head check sees the event set (`done`),
a keepalive exchange times out (`timedOut`), or raises (`failed`).
The samples collected so far and the keepalive count are carried along. -/
inductive HoldOutcome where
  | done (samples : List ℚ) (kcount : Nat)
  | timedOut (samples : List ℚ) (kcount : Nat)
  | failed (e : String) (samples : List ℚ) (kcount : Nat)
deriving DecidableEq

/-- The `while not end_event.is_set()` keepalive loop (src/main.py:137-150).
`rem` is how many more loop-head checks observe the event unset; `k` is the
index of the next keepalive exchange; `acc` the samples so far. -/
def holdLoop (env : NetEnv) : Nat → Nat → List ℚ → Nat → HoldOutcome
  | 0, _, acc, kc => .done acc kc
  | rem + 1, k, acc, kc =>
    match env.keepalive k with
    | .ok rt => holdLoop env rem (k + 1) (acc ++ [rt]) (kc + 1)
    | .timeout => .timedOut acc kc
    | .err e => .failed e acc kc

/-- `test_connection` (src/main.py:105-183): connect, handshake echo (first
latency sample), keepalive hold loop, then the success dict; any
`asyncio.TimeoutError` yields the timeout dict, any other exception the
generic failure dict.  The `url` string and the termination event are kept
as in the source signature; the event's observed behaviour lives in `env`. -/
def test_connection (i : Nat) (url : String) (connection_batch : Nat) (env : NetEnv) :
    ConnectionResult :=
  let connection_id := i + 1
  match env.connect with
  | .fail e =>
    { id := connection_id, batch := connection_batch, success := false,
      duration := env.duration, error := some e }
  | .ok ct =>
    match env.handshake with
    | .timeout =>
      { id := connection_id, batch := connection_batch, success := false,
        duration := env.duration, error := some "Timeout waiting for response" }
    | .err e =>
      { id := connection_id, batch := connection_batch, success := false,
        duration := env.duration, error := some e }
    | .ok hsRT =>
      match holdLoop env env.iters 0 [hsRT] 0 with
      | .done ts kc =>
        { id := connection_id, batch := connection_batch, success := true,
          duration := env.duration, connect_time := some ct,
          response_times := some ts,
          avg_response := some (listAvg ts),
          min_response := some (listMin ts),
          max_response := some (listMax ts),
          error := none, keepalive_count := some kc }
      | .timedOut _ _ =>
        { id := connection_id, batch := connection_batch, success := false,
          duration := env.duration, error := some "Timeout waiting for response" }
      | .failed e _ _ =>
        { id := connection_id, batch := connection_batch, success := false,
          duration := env.duration, error := some e }

/-- One element of the list returned by `asyncio.gather(*tasks,
return_exceptions=True)` (src/main.py:397): either a worker's result dict
or an exception object. -/
inductive WorkerOutput where
  | res (r : ConnectionResult)
  | exn (e : String)
deriving DecidableEq

/-- Python `isinstance(r, dict)` on a gathered output. -/
def WorkerOutput.isRes : WorkerOutput → Bool
  | .res _ => true
  | .exn _ => false

/-- Python `isinstance(r, dict) and r.get("success", False)` (src/main.py:400). -/
def WorkerOutput.isSuccessRes : WorkerOutput → Bool
  | .res r => r.success
  | .exn _ => false

/-- Python `isinstance(r, dict) and not r.get("success", False)` (src/main.py:401). -/
def WorkerOutput.isFailureRes : WorkerOutput → Bool
  | .res r => !r.success
  | .exn _ => false

/-- A batch summary dict.  Independent mode (src/main.py:256-267) fills
`connections`, the latency stats, `duration` and `results`; cumulative mode
(src/main.py:421-428) fills `new_connections` and `total_connections` and
leaves the rest absent.  Absent keys are `none`. -/
structure BatchResult where
  batch : Nat
  successful : Nat
  failed : Nat
  success_rate : ℚ
  connections : Option Nat := none
  new_connections : Option Nat := none
  total_connections : Option Nat := none
  avg_response : Option ℚ := none
  min_response : Option ℚ := none
  max_response : Option ℚ := none
  duration : Option ℚ := none
  results : Option (List ConnectionResult) := none
deriving DecidableEq

/-- `run_batch_test` (src/main.py:185-267): launch `num_connections`
workers, gather their results, partition into successful/failed, pool the
successful workers' latency samples, and build the batch dict.  The i-th
worker's environment is `envs i`; `dur` is the measured batch duration. -/
def run_batch_test (num_connections batch_number : Nat) (url : String)
    (envs : Nat → NetEnv) (dur : ℚ) : BatchResult :=
  let results := (List.range num_connections).map
    (fun i => test_connection i url batch_number (envs i))
  let successful := results.filter (fun r => r.success)
  let failed := results.filter (fun r => !r.success)
  let all_response_times :=
    successful.foldl (fun acc r => acc ++ r.response_times.getD []) []
  { batch := batch_number,
    connections := some num_connections,
    successful := successful.length,
    failed := failed.length,
    success_rate :=
      if 0 < num_connections then
        (successful.length : ℚ) / num_connections * 100 else 0,
    avg_response := some (listAvg all_response_times),
    min_response := some (listMin all_response_times),
    max_response := some (listMax all_response_times),
    duration := some dur,
    results := some results }

/-- The cumulative-mode per-batch aggregation (src/main.py:397-428): count
successes and failures among this batch's gathered outputs (exceptions are
counted in neither set) and build the cumulative batch dict. -/
def cumulative_batch_result (batch_number num_new total : Nat)
    (outputs : List WorkerOutput) : BatchResult :=
  let successful := (outputs.filter WorkerOutput.isSuccessRes).length
  let failed := (outputs.filter WorkerOutput.isFailureRes).length
  { batch := batch_number,
    new_connections := some num_new,
    total_connections := some total,
    successful := successful,
    failed := failed,
    success_rate :=
      if 0 < num_new then (successful : ℚ) / num_new * 100 else 0 }

/-- The non-cumulative branch of the progression loop in `main`
(src/main.py:346, 446-467): while `current_connections <= max_connections`,
run a batch, append its result, keep `last_stable_batch` up to date, and
break when an unstable batch follows an already-recorded stable one.
Structural recursion on a fuel argument stands in for the `while`; with a
positive increment, fuel `max_connections + 1` is never exhausted.
`envs b i` is worker `i`'s environment in batch `b`; `durs b` batch `b`'s
measured duration.  Returns the batch history and whether the loop ended
via the early `break`. -/
def progLoop (url : String) (envs : Nat → Nat → NetEnv) (durs : Nat → ℚ)
    (max_connections connection_increment : Nat) (stability_threshold : ℚ) :
    Nat → Nat → Nat → Option BatchResult → List BatchResult × Bool
  | 0, _, _, _ => ([], false)
  | fuel + 1, batch_number, current_connections, last_stable_batch =>
    if current_connections ≤ max_connections then
      let batch_result := run_batch_test current_connections batch_number url
        (envs batch_number) (durs batch_number)
      if stability_threshold ≤ batch_result.success_rate then
        let next := progLoop url envs durs max_connections connection_increment
          stability_threshold fuel (batch_number + 1)
          (current_connections + connection_increment) (some batch_result)
        (batch_result :: next.1, next.2)
      else
        match last_stable_batch with
        | some _ => ([batch_result], true)
        | none =>
          let next := progLoop url envs durs max_connections connection_increment
            stability_threshold fuel (batch_number + 1)
            (current_connections + connection_increment) none
          (batch_result :: next.1, next.2)
    else ([], false)

/-- The whole non-cumulative run: batch numbers start at 1, the target
count at `start_connections`, no stable batch recorded yet. -/
def progression_run (url : String) (envs : Nat → Nat → NetEnv) (durs : Nat → ℚ)
    (start_connections max_connections connection_increment : Nat)
    (stability_threshold : ℚ) : List BatchResult × Bool :=
  progLoop url envs durs max_connections connection_increment stability_threshold
    (max_connections + 1) 1 start_connections none

/-- The cumulative branch of the progression loop in `main`
(src/main.py:346-445): batch 1 opens `start_connections` new connections,
every later batch `connection_increment`; `total_connections` accumulates;
workers get globally unique ids; only this batch's outputs are gathered
(always result dicts here, since `test_connection` always returns one);
the stop rule is the same as in the other branch. -/
def cumLoop (url : String) (envs : Nat → Nat → NetEnv)
    (start_connections max_connections connection_increment : Nat)
    (stability_threshold : ℚ) :
    Nat → Nat → Nat → Nat → Option BatchResult → List BatchResult × Bool
  | 0, _, _, _, _ => ([], false)
  | fuel + 1, batch_number, current_connections, total_connections, last_stable_batch =>
    if current_connections ≤ max_connections then
      let num_new_connections :=
        if batch_number = 1 then start_connections else connection_increment
      let total2 := total_connections + num_new_connections
      let batch_results_only := (List.range num_new_connections).map
        (fun i => WorkerOutput.res
          (test_connection (total2 - num_new_connections + i) url batch_number
            (envs batch_number i)))
      let batch_result :=
        cumulative_batch_result batch_number num_new_connections total2
          batch_results_only
      if stability_threshold ≤ batch_result.success_rate then
        let next := cumLoop url envs start_connections max_connections
          connection_increment stability_threshold fuel (batch_number + 1)
          (current_connections + connection_increment) total2 (some batch_result)
        (batch_result :: next.1, next.2)
      else
        match last_stable_batch with
        | some _ => ([batch_result], true)
        | none =>
          let next := cumLoop url envs start_connections max_connections
            connection_increment stability_threshold fuel (batch_number + 1)
            (current_connections + connection_increment) total2 none
          (batch_result :: next.1, next.2)
    else ([], false)

/-- The whole cumulative run: batch numbers start at 1, the loop variable
at `start_connections`, the cumulative total at 0. -/
def cumulative_run (url : String) (envs : Nat → Nat → NetEnv)
    (start_connections max_connections connection_increment : Nat)
    (stability_threshold : ℚ) : List BatchResult × Bool :=
  cumLoop url envs start_connections max_connections connection_increment
    stability_threshold (max_connections + 1) 1 start_connections 0 none

/-- The sequence of target counts the `while` loop would visit with no
early break: `cur, cur+inc, ...` while `cur ≤ maxC`, with the same fuel
discipline as the loops. -/
def targetSteps (max_connections connection_increment : Nat) :
    Nat → Nat → List Nat
  | 0, _ => []
  | fuel + 1, cur =>
    if cur ≤ max_connections then
      cur :: targetSteps max_connections connection_increment fuel
        (cur + connection_increment)
    else []

/-- Python `max(l)` over a non-empty list of naturals (with 0 for the
empty list the source never passes). -/
def listMaxNat : List Nat → Nat
  | [] => 0
  | x :: xs => xs.foldl max x

/-- Python `min(l)` over a non-empty list of naturals. -/
def listMinNat : List Nat → Nat
  | [] => 0
  | x :: xs => xs.foldl min x

/-- The final verdict printed by the analysis blocks of `main`
(src/main.py:513-571), as data: a single practical ceiling, an open range
needing finer retesting, "all stable up to the highest tested count",
"unstable from the very first count", or "no data". -/
inductive Verdict where
  | ceiling (c : Nat)
  | range (lo hi : Nat)
  | stableThrough (c : Nat)
  | allUnstable (c : Nat)
  | noData
deriving DecidableEq

/-- Non-cumulative stability analysis (src/main.py:543-571): partition the
history by the threshold, read connection counts from the `connections`
key, compare `min_unstable - max_stable` (Python int subtraction) with the
increment. -/
def analyze_independent (stability_threshold : ℚ) (connection_increment : Nat)
    (batch_results : List BatchResult) : Verdict :=
  let stable := batch_results.filter
    (fun r => stability_threshold ≤ r.success_rate)
  let unstable := batch_results.filter
    (fun r => r.success_rate < stability_threshold)
  if ¬ unstable.isEmpty then
    if ¬ stable.isEmpty then
      let max_stable := listMaxNat (stable.map (fun r => r.connections.getD 0))
      let min_unstable := listMinNat (unstable.map (fun r => r.connections.getD 0))
      if (min_unstable : ℤ) - max_stable ≤ connection_increment then
        .ceiling max_stable
      else
        .range max_stable min_unstable
    else
      .allUnstable ((batch_results.head?.map (fun r => r.connections.getD 0)).getD 0)
  else
    if ¬ batch_results.isEmpty then
      .stableThrough (listMaxNat (batch_results.map (fun r => r.connections.getD 0)))
    else
      .noData

/-- Cumulative stability analysis (src/main.py:513-541): identical shape,
but connection counts are read from the `total_connections` key. -/
def analyze_cumulative (stability_threshold : ℚ) (connection_increment : Nat)
    (batch_results : List BatchResult) : Verdict :=
  let stable := batch_results.filter
    (fun r => stability_threshold ≤ r.success_rate)
  let unstable := batch_results.filter
    (fun r => r.success_rate < stability_threshold)
  if ¬ unstable.isEmpty then
    if ¬ stable.isEmpty then
      let max_stable := listMaxNat (stable.map (fun r => r.total_connections.getD 0))
      let min_unstable := listMinNat (unstable.map (fun r => r.total_connections.getD 0))
      if (min_unstable : ℤ) - max_stable ≤ connection_increment then
        .ceiling max_stable
      else
        .range max_stable min_unstable
    else
      .allUnstable ((batch_results.head?.map (fun r => r.total_connections.getD 0)).getD 0)
  else
    if ¬ batch_results.isEmpty then
      .stableThrough (listMaxNat (batch_results.map (fun r => r.total_connections.getD 0)))
    else
      .noData

/-- One operation on the pool of termination events of a cumulative run:
`asyncio.Event()` allocation for a new batch (src/main.py:359) or
`event.set()` on the event at a given index (src/main.py:394, 473-474). -/
inductive SigOp where
  | newEvent
  | setEvent (i : Nat)
deriving DecidableEq

/-- Effect of one operation on the event pool (`true` = set). -/
def applySigOp (s : List Bool) : SigOp → List Bool
  | .newEvent => s ++ [false]
  | .setEvent i => s.set i true

/-- Run a sequence of event operations. -/
def runSigOps (s : List Bool) (ops : List SigOp) : List Bool :=
  ops.foldl applySigOp s

/-- The run-end cleanup `for event in all_end_events: event.set()`
(src/main.py:473-474). -/
def closeAllEvents (s : List Bool) : List Bool :=
  runSigOps s ((List.range s.length).map SigOp.setEvent)

/-- The event operations a cumulative run of `n` batches performs, in
order: each batch allocates its event and sets it when its hold time
elapses (src/main.py:359, 394), and the run-end cleanup sets every event
in `all_end_events` again (src/main.py:473-474). -/
def cumSigOps (n : Nat) : List SigOp :=
  ((List.range n).map (fun b => [SigOp.newEvent, SigOp.setEvent b])).flatten
    ++ (List.range n).map SigOp.setEvent

/-! ### Concrete sample inputs used to exercise the definitions -/

/-- A worker environment in which everything succeeds: connecting takes
1ms, every echo round trip 10ms, and the termination event is observed set
at the third loop-head check. -/
def perfectEnv : NetEnv :=
  { connect := .ok 1, handshake := .ok 10, keepalive := fun _ => .ok 10,
    iters := 2, duration := 5 }

/-- A worker environment whose connection attempt is refused. -/
def badEnv : NetEnv :=
  { connect := .fail "refused", handshake := .ok 10, keepalive := fun _ => .ok 10,
    iters := 2, duration := 5 }

/-- A worker environment that connects and completes the handshake (one
10ms sample is collected) but whose first keepalive exchange then times
out while the termination event is still unset. -/
def kaTimeoutEnv : NetEnv :=
  { connect := .ok 1, handshake := .ok 10, keepalive := fun _ => .timeout,
    iters := 3, duration := 5 }

/-- Batch environments: every worker of batches 1 and 2 succeeds, every
worker of later batches fails to connect. -/
def envsMix : Nat → Nat → NetEnv := fun b _ => if b ≤ 2 then perfectEnv else badEnv

/-- A stable history entry at 8 connections (100% success). -/
def stableBatch8 : BatchResult :=
  { batch := 1, successful := 8, failed := 0, success_rate := 100,
    connections := some 8, total_connections := some 8 }

/-- An unstable history entry at 10 connections (0% success). -/
def unstableBatch10 : BatchResult :=
  { batch := 2, successful := 0, failed := 2, success_rate := 0,
    connections := some 10, total_connections := some 10 }

/-- An unstable history entry at 20 connections (0% success). -/
def unstableBatch20 : BatchResult :=
  { batch := 2, successful := 0, failed := 12, success_rate := 0,
    connections := some 20, total_connections := some 20 }

/-! ### Helper lemmas about the list primitives -/

theorem foldl_min_le_init (xs : List ℚ) (a : ℚ) : xs.foldl min a ≤ a := by
  induction xs generalizing a with
  | nil => simp
  | cons x xs ih => exact le_trans (ih (min a x)) (min_le_left a x)

theorem foldl_min_le_mem (xs : List ℚ) (a x : ℚ) (hx : x ∈ xs) :
    xs.foldl min a ≤ x := by
  induction xs generalizing a with
  | nil => cases hx
  | cons y ys ih =>
    rcases List.mem_cons.mp hx with h | h
    · subst h
      exact le_trans (foldl_min_le_init ys (min a x)) (min_le_right a x)
    · exact ih (min a y) h

theorem foldl_min_mem (xs : List ℚ) (a : ℚ) : xs.foldl min a ∈ a :: xs := by
  induction xs generalizing a with
  | nil => simp
  | cons x xs ih =>
    simp only [List.foldl_cons]
    have h := ih (min a x)
    rcases List.mem_cons.mp h with h | h
    · rw [h]
      rcases min_choice a x with hc | hc <;> rw [hc] <;> simp
    · exact List.mem_cons.mpr (Or.inr (List.mem_cons.mpr (Or.inr h)))

theorem foldl_max_init_le (xs : List ℚ) (a : ℚ) : a ≤ xs.foldl max a := by
  induction xs generalizing a with
  | nil => simp
  | cons x xs ih => exact le_trans (le_max_left a x) (ih (max a x))

theorem foldl_max_mem_le (xs : List ℚ) (a x : ℚ) (hx : x ∈ xs) :
    x ≤ xs.foldl max a := by
  induction xs generalizing a with
  | nil => cases hx
  | cons y ys ih =>
    rcases List.mem_cons.mp hx with h | h
    · subst h
      exact le_trans (le_max_right a x) (foldl_max_init_le ys (max a x))
    · exact ih (max a y) h

theorem foldl_max_mem (xs : List ℚ) (a : ℚ) : xs.foldl max a ∈ a :: xs := by
  induction xs generalizing a with
  | nil => simp
  | cons x xs ih =>
    simp only [List.foldl_cons]
    have h := ih (max a x)
    rcases List.mem_cons.mp h with h | h
    · rw [h]
      rcases max_choice a x with hc | hc <;> rw [hc] <;> simp
    · exact List.mem_cons.mpr (Or.inr (List.mem_cons.mpr (Or.inr h)))

theorem listMin_le (l : List ℚ) (x : ℚ) (hx : x ∈ l) : listMin l ≤ x := by
  cases l with
  | nil => cases hx
  | cons y ys =>
    rcases List.mem_cons.mp hx with h | h
    · subst h; exact foldl_min_le_init ys x
    · exact foldl_min_le_mem ys y x h

theorem le_listMax (l : List ℚ) (x : ℚ) (hx : x ∈ l) : x ≤ listMax l := by
  cases l with
  | nil => cases hx
  | cons y ys =>
    rcases List.mem_cons.mp hx with h | h
    · subst h; exact foldl_max_init_le ys x
    · exact foldl_max_mem_le ys y x h

theorem listMin_mem (l : List ℚ) (h : l ≠ []) : listMin l ∈ l := by
  cases l with
  | nil => exact absurd rfl h
  | cons y ys => exact foldl_min_mem ys y

theorem length_mul_le_sum (l : List ℚ) (a : ℚ) (h : ∀ x ∈ l, a ≤ x) :
    (l.length : ℚ) * a ≤ l.sum := by
  induction l with
  | nil => simp
  | cons x xs ih =>
    have hx := h x (List.mem_cons_self x xs)
    have hxs := ih (fun y hy => h y (List.mem_cons_of_mem x hy))
    simp only [List.sum_cons, List.length_cons]
    push_cast
    nlinarith

theorem sum_le_length_mul (l : List ℚ) (b : ℚ) (h : ∀ x ∈ l, x ≤ b) :
    l.sum ≤ (l.length : ℚ) * b := by
  induction l with
  | nil => simp
  | cons x xs ih =>
    have hx := h x (List.mem_cons_self x xs)
    have hxs := ih (fun y hy => h y (List.mem_cons_of_mem x hy))
    simp only [List.sum_cons, List.length_cons]
    push_cast
    nlinarith

theorem listMin_le_listAvg (l : List ℚ) (h : l ≠ []) : listMin l ≤ listAvg l := by
  have hlen : 0 < (l.length : ℚ) := by
    have : 0 < l.length := List.length_pos.mpr h
    exact_mod_cast this
  have hsum := length_mul_le_sum l (listMin l) (fun x hx => listMin_le l x hx)
  rw [listAvg, if_neg (by simp [List.isEmpty_iff, h])]
  rw [le_div_iff₀ hlen]
  linarith [hsum]

theorem listAvg_le_listMax (l : List ℚ) (h : l ≠ []) : listAvg l ≤ listMax l := by
  have hlen : 0 < (l.length : ℚ) := by
    have : 0 < l.length := List.length_pos.mpr h
    exact_mod_cast this
  have hsum := sum_le_length_mul l (listMax l) (fun x hx => le_listMax l x hx)
  rw [listAvg, if_neg (by simp [List.isEmpty_iff, h])]
  rw [div_le_iff₀ hlen]
  linarith [hsum]

theorem length_filter_add_length_filter_not {α : Type} (l : List α) (p : α → Bool) :
    (l.filter p).length + (l.filter (fun x => !p x)).length = l.length := by
  induction l with
  | nil => simp
  | cons x xs ih =>
    by_cases h : p x <;> simp [List.filter_cons, h, ← ih] <;> omega

/-! ### Helper lemmas about the hold loop and `test_connection` -/

/-- Every way `holdLoop` can end, the samples it carries extend `acc`:
the accumulated list is an initial segment, so its head survives, and any
property holding of `acc`'s entries and of all keepalive round trips holds
of all carried samples. -/
theorem holdLoop_done_spec (env : NetEnv) (P : ℚ → Prop)
    (hP : ∀ j rt, env.keepalive j = .ok rt → P rt) :
    ∀ rem k acc kc ts kc', holdLoop env rem k acc kc = .done ts kc' →
      (∀ x ∈ acc, P x) → acc ≠ [] →
      (∀ x ∈ ts, P x) ∧ ts ≠ [] ∧ ts.head? = acc.head? ∧ acc.length ≤ ts.length := by
  intro rem
  induction rem with
  | zero =>
    intro k acc kc ts kc' heq hacc hne
    simp only [holdLoop] at heq
    cases heq
    exact ⟨hacc, hne, rfl, le_refl _⟩
  | succ rem ih =>
    intro k acc kc ts kc' heq hacc hne
    simp only [holdLoop] at heq
    cases hka : env.keepalive k with
    | ok rt =>
      rw [hka] at heq
      have hacc' : ∀ x ∈ acc ++ [rt], P x := by
        intro x hx
        rcases List.mem_append.mp hx with h | h
        · exact hacc x h
        · have hx' : x = rt := by simpa using h
          rw [hx']
          exact hP k rt hka
      have hne' : acc ++ [rt] ≠ [] := by simp
      obtain ⟨h1, h2, h3, h4⟩ := ih (k + 1) (acc ++ [rt]) (kc + 1) ts kc' heq hacc' hne'
      refine ⟨h1, h2, ?_, ?_⟩
      · rw [h3]
        cases acc with
        | nil => exact absurd rfl hne
        | cons a as => rfl
      · simpa using le_trans (by simp) h4
    | timeout => rw [hka] at heq; cases heq
    | err e => rw [hka] at heq; cases heq

/-- If `test_connection` reports success, the run went connect-ok,
handshake-ok, hold-loop-done, and the result is exactly the success dict
built from the loop's samples. -/
theorem test_connection_success_spec (i : Nat) (url : String) (b : Nat) (env : NetEnv)
    (hs : (test_connection i url b env).success = true) :
    ∃ ct hsRT ts kc, env.connect = .ok ct ∧ env.handshake = .ok hsRT ∧
      holdLoop env env.iters 0 [hsRT] 0 = .done ts kc ∧
      test_connection i url b env =
        { id := i + 1, batch := b, success := true, duration := env.duration,
          connect_time := some ct, response_times := some ts,
          avg_response := some (listAvg ts), min_response := some (listMin ts),
          max_response := some (listMax ts), error := none,
          keepalive_count := some kc } := by
  cases hc : env.connect with
  | fail e => simp [test_connection, hc] at hs
  | ok ct =>
    cases hh : env.handshake with
    | timeout => simp [test_connection, hc, hh] at hs
    | err e => simp [test_connection, hc, hh] at hs
    | ok hsRT =>
      cases hl : holdLoop env env.iters 0 [hsRT] 0 with
      | done ts kc =>
        exact ⟨ct, hsRT, ts, kc, rfl, rfl, hl, by simp [test_connection, hc, hh, hl]⟩
      | timedOut ts kc => simp [test_connection, hc, hh, hl] at hs
      | failed e ts kc => simp [test_connection, hc, hh, hl] at hs

/-! ### C7: the worker always yields one result, error iff not successful -/

/-- C7: for every execution of the connection worker (every abstract
network environment), `test_connection` is a total function returning
exactly one `ConnectionResult` — every connect failure, timeout or other
exception surfaces as a result, never as a raised error — and the error
reason is `None` exactly when the worker succeeded, i.e. the error reason
is present iff the result is not successful. -/
theorem C7_worker_error_iff_failure (i : Nat) (url : String) (b : Nat) (env : NetEnv) :
    ((test_connection i url b env).error = none ↔
      (test_connection i url b env).success = true) ∧
    (test_connection i url b env).error.isSome =
      !(test_connection i url b env).success := by
  cases hc : env.connect with
  | fail e => simp [test_connection, hc]
  | ok ct =>
    cases hh : env.handshake with
    | timeout => simp [test_connection, hc, hh]
    | err e => simp [test_connection, hc, hh]
    | ok hsRT =>
      cases hl : holdLoop env env.iters 0 [hsRT] 0 <;>
        simp [test_connection, hc, hh, hl]

/-! ### C4: successful results carry ≥ 1 sample and ordered statistics -/

/-- C4: every successful `ConnectionResult` carries at least one latency
sample, the handshake round trip is its first sample, and — given that
round trips are nonnegative measurements — its derived statistics satisfy
`0 ≤ min_response ≤ avg_response ≤ max_response`. -/
theorem C4_success_latency_stats (i : Nat) (url : String) (b : Nat) (env : NetEnv)
    (hhs : ∀ rt, env.handshake = .ok rt → 0 ≤ rt)
    (hka : ∀ j rt, env.keepalive j = .ok rt → 0 ≤ rt)
    (hs : (test_connection i url b env).success = true) :
    ∃ ts mn av mx,
      (test_connection i url b env).response_times = some ts ∧
      1 ≤ ts.length ∧
      (∃ hsRT, env.handshake = .ok hsRT ∧ ts.head? = some hsRT) ∧
      (test_connection i url b env).min_response = some mn ∧
      (test_connection i url b env).avg_response = some av ∧
      (test_connection i url b env).max_response = some mx ∧
      0 ≤ mn ∧ mn ≤ av ∧ av ≤ mx := by
  obtain ⟨ct, hsRT, ts, kc, hc, hh, hl, heq⟩ :=
    test_connection_success_spec i url b env hs
  have hsamp := holdLoop_done_spec env (fun x => 0 ≤ x) hka env.iters 0 [hsRT] 0 ts kc hl
    (by
      intro x hx
      have hx' : x = hsRT := by simpa using hx
      rw [hx']
      exact hhs hsRT hh)
    (by simp)
  obtain ⟨hall, hne, hhead, hlen⟩ := hsamp
  refine ⟨ts, listMin ts, listAvg ts, listMax ts, ?_, ?_, ?_, ?_, ?_, ?_, ?_, ?_, ?_⟩
  · rw [heq]
  · simpa using hlen
  · exact ⟨hsRT, hh, by rw [hhead]; rfl⟩
  · rw [heq]
  · rw [heq]
  · rw [heq]
  · exact hall _ (listMin_mem ts hne)
  · exact listMin_le_listAvg ts hne
  · exact listAvg_le_listMax ts hne

/-- Witness for C4 at a concrete successful environment. -/
theorem C4_success_latency_stats_witness :
    (∀ rt, perfectEnv.handshake = .ok rt → 0 ≤ rt) ∧
    (∀ j rt, perfectEnv.keepalive j = .ok rt → 0 ≤ rt) ∧
    (test_connection 0 "ws" 1 perfectEnv).success = true ∧
    (∃ ts mn av mx,
      (test_connection 0 "ws" 1 perfectEnv).response_times = some ts ∧
      1 ≤ ts.length ∧
      (∃ hsRT, perfectEnv.handshake = .ok hsRT ∧ ts.head? = some hsRT) ∧
      (test_connection 0 "ws" 1 perfectEnv).min_response = some mn ∧
      (test_connection 0 "ws" 1 perfectEnv).avg_response = some av ∧
      (test_connection 0 "ws" 1 perfectEnv).max_response = some mx ∧
      0 ≤ mn ∧ mn ≤ av ∧ av ≤ mx) := by
  have h1 : ∀ rt, perfectEnv.handshake = .ok rt → 0 ≤ rt := by
    intro rt h
    injection h with h2
    rw [← h2]
    decide
  have h2 : ∀ j rt, perfectEnv.keepalive j = .ok rt → 0 ≤ rt := by
    intro j rt h
    injection h with h2
    rw [← h2]
    decide
  have h3 : (test_connection 0 "ws" 1 perfectEnv).success = true := rfl
  exact ⟨h1, h2, h3, C4_success_latency_stats 0 "ws" 1 perfectEnv h1 h2 h3⟩

/-! ### C5: failure during the hold phase and the collected samples -/

/-- C5 counterexample: in `kaTimeoutEnv` the worker connects, completes
the handshake (so one 10ms latency sample has been collected), and then
the first keepalive exchange times out during the holding phase.  The
claim says the returned result preserves the samples collected so far;
in fact the returned dict has no `response_times` key at all. -/
theorem C5_counterexample :
    holdLoop kaTimeoutEnv kaTimeoutEnv.iters 0 [10] 0 = .timedOut [10] 0 ∧
    (test_connection 0 "ws" 1 kaTimeoutEnv).success = false ∧
    (test_connection 0 "ws" 1 kaTimeoutEnv).response_times = none ∧
    (test_connection 0 "ws" 1 kaTimeoutEnv).error =
      some "Timeout waiting for response" :=
  ⟨rfl, rfl, rfl, rfl⟩

/-- C5 amended: when a worker fails during the holding phase (keepalive
timeout or error after a successful connect and handshake), the returned
`ConnectionResult` has `success = false` and an error reason, but the
latency samples collected so far are discarded: the `response_times`,
`avg_response`, `min_response` and `max_response` keys are all absent. -/
theorem C5_amended_hold_failure_discards_samples (i : Nat) (url : String) (b : Nat)
    (env : NetEnv) (ct hsRT : ℚ) (hc : env.connect = .ok ct)
    (hh : env.handshake = .ok hsRT)
    (hfail : ∀ ts kc, holdLoop env env.iters 0 [hsRT] 0 ≠ .done ts kc) :
    (test_connection i url b env).success = false ∧
    (test_connection i url b env).response_times = none ∧
    (test_connection i url b env).avg_response = none ∧
    (test_connection i url b env).min_response = none ∧
    (test_connection i url b env).max_response = none ∧
    (test_connection i url b env).error.isSome = true := by
  cases hl : holdLoop env env.iters 0 [hsRT] 0 with
  | done ts kc => exact absurd hl (hfail ts kc)
  | timedOut ts kc => simp [test_connection, hc, hh, hl]
  | failed e ts kc => simp [test_connection, hc, hh, hl]

/-- Witness for the amended C5 at the concrete keepalive-timeout
environment. -/
theorem C5_amended_hold_failure_discards_samples_witness :
    kaTimeoutEnv.connect = .ok 1 ∧
    kaTimeoutEnv.handshake = .ok 10 ∧
    (∀ ts kc, holdLoop kaTimeoutEnv kaTimeoutEnv.iters 0 [10] 0 ≠ .done ts kc) ∧
    ((test_connection 0 "ws" 1 kaTimeoutEnv).success = false ∧
     (test_connection 0 "ws" 1 kaTimeoutEnv).response_times = none ∧
     (test_connection 0 "ws" 1 kaTimeoutEnv).avg_response = none ∧
     (test_connection 0 "ws" 1 kaTimeoutEnv).min_response = none ∧
     (test_connection 0 "ws" 1 kaTimeoutEnv).max_response = none ∧
     (test_connection 0 "ws" 1 kaTimeoutEnv).error.isSome = true) := by
  have hfail : ∀ ts kc, holdLoop kaTimeoutEnv kaTimeoutEnv.iters 0 [10] 0 ≠ .done ts kc := by
    intro ts kc h
    have hv : holdLoop kaTimeoutEnv kaTimeoutEnv.iters 0 [10] 0 = .timedOut [10] 0 := rfl
    rw [hv] at h
    cases h
  exact ⟨rfl, rfl, hfail,
    C5_amended_hold_failure_discards_samples 0 "ws" 1 kaTimeoutEnv 1 10 rfl rfl hfail⟩

/-! ### Helper lemmas about the batch aggregations -/

theorem rate_bounds (s n : Nat) (hsn : s ≤ n) (hn : 0 < n) :
    0 ≤ (s : ℚ) / n * 100 ∧ (s : ℚ) / n * 100 ≤ 100 := by
  have hn' : 0 < (n : ℚ) := by exact_mod_cast hn
  constructor
  · positivity
  · have h1 : (s : ℚ) / n ≤ 1 := by
      rw [div_le_one hn']
      exact_mod_cast hsn
    nlinarith

theorem succ_add_fail_eq_res (outputs : List WorkerOutput) :
    (outputs.filter WorkerOutput.isSuccessRes).length +
      (outputs.filter WorkerOutput.isFailureRes).length =
      (outputs.filter WorkerOutput.isRes).length := by
  induction outputs with
  | nil => rfl
  | cons o os ih =>
    cases o with
    | res r =>
      cases hr : r.success <;>
        simp [List.filter_cons, WorkerOutput.isSuccessRes, WorkerOutput.isFailureRes,
          WorkerOutput.isRes, hr] <;> omega
    | exn e =>
      simpa [List.filter_cons, WorkerOutput.isSuccessRes, WorkerOutput.isFailureRes,
        WorkerOutput.isRes] using ih

theorem filter_res_lt_of_exn (outputs : List WorkerOutput) (e : String)
    (h : WorkerOutput.exn e ∈ outputs) :
    (outputs.filter WorkerOutput.isRes).length < outputs.length := by
  induction outputs with
  | nil => cases h
  | cons o os ih =>
    rcases List.mem_cons.mp h with h | h
    · rw [← h]
      have := List.length_filter_le WorkerOutput.isRes os
      simp [List.filter_cons, WorkerOutput.isRes]
      omega
    · have := ih h
      cases o <;>
        simp [List.filter_cons, WorkerOutput.isRes] <;> omega

/-- Invariants of the independent-mode batch summary: the `connections`
key records the attempted count, successes and failures partition the
worker results, and the success rate is the success fraction clamped to
nothing — it already lies in [0, 100]. -/
theorem run_batch_test_invariants (n b : Nat) (url : String) (envs : Nat → NetEnv)
    (dur : ℚ) :
    (run_batch_test n b url envs dur).connections = some n ∧
    (run_batch_test n b url envs dur).successful +
      (run_batch_test n b url envs dur).failed = n ∧
    0 ≤ (run_batch_test n b url envs dur).success_rate ∧
    (run_batch_test n b url envs dur).success_rate ≤ 100 ∧
    (0 < n → (run_batch_test n b url envs dur).success_rate =
      ((run_batch_test n b url envs dur).successful : ℚ) /
        (((run_batch_test n b url envs dur).successful : ℚ) +
          ((run_batch_test n b url envs dur).failed : ℚ)) * 100) := by
  have hlen : ((List.range n).map (fun i => test_connection i url b (envs i))).length = n := by
    simp
  have hpart := length_filter_add_length_filter_not
    ((List.range n).map (fun i => test_connection i url b (envs i))) (fun r => r.success)
  have hsle : (((List.range n).map (fun i => test_connection i url b (envs i))).filter
      (fun r => r.success)).length ≤ n := by
    have := List.length_filter_le (fun r => r.success)
      ((List.range n).map (fun i => test_connection i url b (envs i)))
    omega
  refine ⟨rfl, ?_, ?_, ?_, ?_⟩
  · show (((List.range n).map (fun i => test_connection i url b (envs i))).filter
        (fun r => r.success)).length +
      (((List.range n).map (fun i => test_connection i url b (envs i))).filter
        (fun r => !r.success)).length = n
    rw [hpart, hlen]
  · show (0:ℚ) ≤ (if 0 < n then
        ((((List.range n).map (fun i => test_connection i url b (envs i))).filter
          (fun r => r.success)).length : ℚ) / n * 100 else 0)
    by_cases hn : 0 < n
    · rw [if_pos hn]
      exact (rate_bounds _ n hsle hn).1
    · rw [if_neg hn]
  · show (if 0 < n then
        ((((List.range n).map (fun i => test_connection i url b (envs i))).filter
          (fun r => r.success)).length : ℚ) / n * 100 else 0) ≤ 100
    by_cases hn : 0 < n
    · rw [if_pos hn]
      exact (rate_bounds _ n hsle hn).2
    · rw [if_neg hn]
      norm_num
  · intro hn
    show (if 0 < n then
        ((((List.range n).map (fun i => test_connection i url b (envs i))).filter
          (fun r => r.success)).length : ℚ) / n * 100 else 0) = _
    rw [if_pos hn]
    have hcast : ((((List.range n).map (fun i => test_connection i url b (envs i))).filter
        (fun r => r.success)).length : ℚ) +
        ((((List.range n).map (fun i => test_connection i url b (envs i))).filter
          (fun r => !r.success)).length : ℚ) = (n : ℚ) := by
      exact_mod_cast (by rw [hpart, hlen] : _ = n)
    rw [← hcast]
    rfl

/-- Invariants of the cumulative-mode batch summary: successes plus
failures count exactly the result-dict outputs, equal the attempted count
when every output is a result dict, and the success rate lies in [0,100]
when the outputs came one per launched task. -/
theorem cumulative_batch_invariants (b nn tot : Nat) (outputs : List WorkerOutput)
    (hlen : outputs.length = nn) :
    (cumulative_batch_result b nn tot outputs).new_connections = some nn ∧
    (cumulative_batch_result b nn tot outputs).total_connections = some tot ∧
    (cumulative_batch_result b nn tot outputs).successful +
      (cumulative_batch_result b nn tot outputs).failed =
      (outputs.filter WorkerOutput.isRes).length ∧
    ((∀ o ∈ outputs, o.isRes = true) →
      (cumulative_batch_result b nn tot outputs).successful +
        (cumulative_batch_result b nn tot outputs).failed = nn) ∧
    0 ≤ (cumulative_batch_result b nn tot outputs).success_rate ∧
    (cumulative_batch_result b nn tot outputs).success_rate ≤ 100 ∧
    (0 < nn → (∀ o ∈ outputs, o.isRes = true) →
      (cumulative_batch_result b nn tot outputs).success_rate =
        ((cumulative_batch_result b nn tot outputs).successful : ℚ) /
          (((cumulative_batch_result b nn tot outputs).successful : ℚ) +
            ((cumulative_batch_result b nn tot outputs).failed : ℚ)) * 100) := by
  have hres := succ_add_fail_eq_res outputs
  have hresle : (outputs.filter WorkerOutput.isRes).length ≤ nn := by
    have := List.length_filter_le WorkerOutput.isRes outputs
    omega
  have hsle : (outputs.filter WorkerOutput.isSuccessRes).length ≤ nn := by
    have := List.length_filter_le WorkerOutput.isSuccessRes outputs
    omega
  have hall : (∀ o ∈ outputs, o.isRes = true) →
      (outputs.filter WorkerOutput.isRes).length = nn := by
    intro h
    rw [List.filter_eq_self.mpr h, hlen]
  refine ⟨rfl, rfl, hres, ?_, ?_, ?_, ?_⟩
  · intro h
    show (outputs.filter WorkerOutput.isSuccessRes).length +
      (outputs.filter WorkerOutput.isFailureRes).length = nn
    rw [hres, hall h]
  · show (0:ℚ) ≤ (if 0 < nn then
        ((outputs.filter WorkerOutput.isSuccessRes).length : ℚ) / nn * 100 else 0)
    by_cases hn : 0 < nn
    · rw [if_pos hn]
      exact (rate_bounds _ nn hsle hn).1
    · rw [if_neg hn]
  · show (if 0 < nn then
        ((outputs.filter WorkerOutput.isSuccessRes).length : ℚ) / nn * 100 else 0) ≤ 100
    by_cases hn : 0 < nn
    · rw [if_pos hn]
      exact (rate_bounds _ nn hsle hn).2
    · rw [if_neg hn]
      norm_num
  · intro hn h
    show (if 0 < nn then
        ((outputs.filter WorkerOutput.isSuccessRes).length : ℚ) / nn * 100 else 0) = _
    rw [if_pos hn]
    have heq : (outputs.filter WorkerOutput.isSuccessRes).length +
        (outputs.filter WorkerOutput.isFailureRes).length = nn := by
      rw [hres, hall h]
    have hcast : ((outputs.filter WorkerOutput.isSuccessRes).length : ℚ) +
        ((outputs.filter WorkerOutput.isFailureRes).length : ℚ) = (nn : ℚ) := by
      exact_mod_cast heq
    rw [← hcast]
    rfl

/-! ### Shape of the histories produced by the two progression loops -/

/-- Every entry of a non-cumulative history is a `run_batch_test` summary. -/
theorem progLoop_mem_shape (url : String) (envs : Nat → Nat → NetEnv) (durs : Nat → ℚ)
    (maxC inc : Nat) (thr : ℚ) :
    ∀ fuel b cur ls r, r ∈ (progLoop url envs durs maxC inc thr fuel b cur ls).1 →
      ∃ n bn, r = run_batch_test n bn url (envs bn) (durs bn) := by
  intro fuel
  induction fuel with
  | zero => intro b cur ls r hr; simp [progLoop] at hr
  | succ fuel ih =>
    intro b cur ls r hr
    by_cases hcur : cur ≤ maxC
    · simp only [progLoop, if_pos hcur] at hr
      split at hr
      · rcases List.mem_cons.mp hr with h | h
        · exact ⟨cur, b, h⟩
        · exact ih (b + 1) (cur + inc) _ r h
      · split at hr
        · rcases List.mem_cons.mp hr with h | h
          · exact ⟨cur, b, h⟩
          · cases (List.not_mem_nil r) h
        · rcases List.mem_cons.mp hr with h | h
          · exact ⟨cur, b, h⟩
          · exact ih (b + 1) (cur + inc) _ r h
    · simp [progLoop, if_neg hcur] at hr

/-- Every entry of a cumulative history is a `cumulative_batch_result`
built from one gathered output per launched worker, all of them result
dicts. -/
theorem cumLoop_mem_shape (url : String) (envs : Nat → Nat → NetEnv)
    (start maxC inc : Nat) (thr : ℚ) :
    ∀ fuel b cur tot ls r,
      r ∈ (cumLoop url envs start maxC inc thr fuel b cur tot ls).1 →
      ∃ bn nn tot2 outs, r = cumulative_batch_result bn nn tot2 outs ∧
        outs.length = nn ∧ (∀ o ∈ outs, o.isRes = true) := by
  intro fuel
  induction fuel with
  | zero => intro b cur tot ls r hr; simp [cumLoop] at hr
  | succ fuel ih =>
    intro b cur tot ls r hr
    by_cases hcur : cur ≤ maxC
    · simp only [cumLoop, if_pos hcur] at hr
      set nn := if b = 1 then start else inc with hnn
      have hhead :
          ∃ bn' nn' tot2' outs,
            cumulative_batch_result b nn (tot + nn)
              ((List.range nn).map (fun i => WorkerOutput.res
                (test_connection (tot + nn - nn + i) url b (envs b i)))) =
              cumulative_batch_result bn' nn' tot2' outs ∧
            outs.length = nn' ∧ (∀ o ∈ outs, o.isRes = true) := by
        refine ⟨b, nn, tot + nn, _, rfl, by simp, ?_⟩
        intro o ho
        rcases List.mem_map.mp ho with ⟨i, _, hi⟩
        rw [← hi]
        rfl
      split at hr
      · rcases List.mem_cons.mp hr with h | h
        · rw [h]; exact hhead
        · exact ih (b + 1) (cur + inc) _ _ r h
      · split at hr
        · rcases List.mem_cons.mp hr with h | h
          · rw [h]; exact hhead
          · cases (List.not_mem_nil r) h
        · rcases List.mem_cons.mp hr with h | h
          · rw [h]; exact hhead
          · exact ih (b + 1) (cur + inc) _ _ r h
    · simp [cumLoop, if_neg hcur] at hr

/-! ### C3: per-batch counting invariants in both modes -/

/-- C3: for every `BatchResult` produced in either mode, the attempted
connection count of the batch (the `connections` key in independent mode,
the `new_connections` key in cumulative mode) equals `successful + failed`,
and the success rate equals `successful / attempted * 100` and lies in
`[0, 100]`. -/
theorem C3_batch_counts (url : String) (envs cenvs : Nat → Nat → NetEnv)
    (durs : Nat → ℚ) (start maxC inc : Nat) (thr : ℚ) :
    (∀ r ∈ (progression_run url envs durs start maxC inc thr).1,
      r.connections = some (r.successful + r.failed) ∧
      0 ≤ r.success_rate ∧ r.success_rate ≤ 100 ∧
      (0 < r.successful + r.failed →
        r.success_rate =
          (r.successful : ℚ) / ((r.successful : ℚ) + (r.failed : ℚ)) * 100)) ∧
    (∀ r ∈ (cumulative_run url cenvs start maxC inc thr).1,
      r.new_connections = some (r.successful + r.failed) ∧
      0 ≤ r.success_rate ∧ r.success_rate ≤ 100 ∧
      (0 < r.successful + r.failed →
        r.success_rate =
          (r.successful : ℚ) / ((r.successful : ℚ) + (r.failed : ℚ)) * 100)) := by
  constructor
  · intro r hr
    obtain ⟨n, bn, heq⟩ := progLoop_mem_shape url envs durs maxC inc thr _ _ _ _ r hr
    obtain ⟨h1, h2, h3, h4, h5⟩ := run_batch_test_invariants n bn url (envs bn) (durs bn)
    subst heq
    refine ⟨by rw [h1, h2], h3, h4, ?_⟩
    intro hpos
    have hn : 0 < n := by omega
    exact h5 hn
  · intro r hr
    obtain ⟨bn, nn, tot2, outs, heq, hlen, hres⟩ :=
      cumLoop_mem_shape url cenvs start maxC inc thr _ _ _ _ _ r hr
    obtain ⟨h1, h2, h3, h4, h5, h6, h7⟩ := cumulative_batch_invariants bn nn tot2 outs hlen
    subst heq
    have hsum := h4 hres
    refine ⟨by rw [h1, hsum], h5, h6, ?_⟩
    intro hpos
    have hn : 0 < nn := by omega
    exact h7 hn hres

/-- Witness for C3 on a concrete one-batch run of each mode. -/
theorem C3_batch_counts_witness :
    (run_batch_test 1 1 "ws" (fun _ => perfectEnv) 5 ∈
      (progression_run "ws" (fun _ _ => perfectEnv) (fun _ => 5) 1 1 1 90).1) ∧
    ((run_batch_test 1 1 "ws" (fun _ => perfectEnv) 5).connections =
        some ((run_batch_test 1 1 "ws" (fun _ => perfectEnv) 5).successful +
          (run_batch_test 1 1 "ws" (fun _ => perfectEnv) 5).failed) ∧
      0 ≤ (run_batch_test 1 1 "ws" (fun _ => perfectEnv) 5).success_rate ∧
      (run_batch_test 1 1 "ws" (fun _ => perfectEnv) 5).success_rate ≤ 100 ∧
      (0 < (run_batch_test 1 1 "ws" (fun _ => perfectEnv) 5).successful +
          (run_batch_test 1 1 "ws" (fun _ => perfectEnv) 5).failed →
        (run_batch_test 1 1 "ws" (fun _ => perfectEnv) 5).success_rate =
          ((run_batch_test 1 1 "ws" (fun _ => perfectEnv) 5).successful : ℚ) /
            (((run_batch_test 1 1 "ws" (fun _ => perfectEnv) 5).successful : ℚ) +
              ((run_batch_test 1 1 "ws" (fun _ => perfectEnv) 5).failed : ℚ)) * 100)) ∧
    (cumulative_batch_result 1 1 1 [WorkerOutput.res (test_connection 0 "ws" 1 perfectEnv)] ∈
      (cumulative_run "ws" (fun _ _ => perfectEnv) 1 1 1 90).1) ∧
    ((cumulative_batch_result 1 1 1
        [WorkerOutput.res (test_connection 0 "ws" 1 perfectEnv)]).new_connections =
        some ((cumulative_batch_result 1 1 1
            [WorkerOutput.res (test_connection 0 "ws" 1 perfectEnv)]).successful +
          (cumulative_batch_result 1 1 1
            [WorkerOutput.res (test_connection 0 "ws" 1 perfectEnv)]).failed) ∧
      0 ≤ (cumulative_batch_result 1 1 1
          [WorkerOutput.res (test_connection 0 "ws" 1 perfectEnv)]).success_rate ∧
      (cumulative_batch_result 1 1 1
          [WorkerOutput.res (test_connection 0 "ws" 1 perfectEnv)]).success_rate ≤ 100 ∧
      (0 < (cumulative_batch_result 1 1 1
            [WorkerOutput.res (test_connection 0 "ws" 1 perfectEnv)]).successful +
          (cumulative_batch_result 1 1 1
            [WorkerOutput.res (test_connection 0 "ws" 1 perfectEnv)]).failed →
        (cumulative_batch_result 1 1 1
            [WorkerOutput.res (test_connection 0 "ws" 1 perfectEnv)]).success_rate =
          ((cumulative_batch_result 1 1 1
              [WorkerOutput.res (test_connection 0 "ws" 1 perfectEnv)]).successful : ℚ) /
            (((cumulative_batch_result 1 1 1
                [WorkerOutput.res (test_connection 0 "ws" 1 perfectEnv)]).successful : ℚ) +
              ((cumulative_batch_result 1 1 1
                [WorkerOutput.res (test_connection 0 "ws" 1 perfectEnv)]).failed : ℚ)) * 100)) := by
  have hm1 : run_batch_test 1 1 "ws" (fun _ => perfectEnv) 5 ∈
      (progression_run "ws" (fun _ _ => perfectEnv) (fun _ => 5) 1 1 1 90).1 := by
    with_unfolding_all decide
  have hm2 : cumulative_batch_result 1 1 1
      [WorkerOutput.res (test_connection 0 "ws" 1 perfectEnv)] ∈
      (cumulative_run "ws" (fun _ _ => perfectEnv) 1 1 1 90).1 := by
    with_unfolding_all decide
  refine ⟨hm1, ?_, hm2, ?_⟩
  · exact (C3_batch_counts "ws" (fun _ _ => perfectEnv) (fun _ _ => perfectEnv)
      (fun _ => 5) 1 1 1 90).1 _ hm1
  · exact (C3_batch_counts "ws" (fun _ _ => perfectEnv) (fun _ _ => perfectEnv)
      (fun _ => 5) 1 1 1 90).2 _ hm2

/-! ### C10: gathered exceptions are counted in neither set -/

/-- C10: in the cumulative-mode aggregation, an output that is not a
result dict (an exception surfaced by `return_exceptions=True`) is counted
in neither the successful nor the failed set, so when such an output
exists among the batch's gathered outputs, `successful + failed` counts
exactly the result-dict outputs and is strictly less than the attempted
new-connection count. -/
theorem C10_exception_outputs_uncounted (b nn tot : Nat) (outputs : List WorkerOutput)
    (hlen : outputs.length = nn) (e : String) (hmem : WorkerOutput.exn e ∈ outputs) :
    (cumulative_batch_result b nn tot outputs).successful +
      (cumulative_batch_result b nn tot outputs).failed =
      (outputs.filter WorkerOutput.isRes).length ∧
    (cumulative_batch_result b nn tot outputs).successful +
      (cumulative_batch_result b nn tot outputs).failed < nn := by
  have h1 := succ_add_fail_eq_res outputs
  have h2 := filter_res_lt_of_exn outputs e hmem
  constructor
  · exact h1
  · show (outputs.filter WorkerOutput.isSuccessRes).length +
      (outputs.filter WorkerOutput.isFailureRes).length < nn
    omega

/-- Witness for C10 at a concrete batch whose single output is an
exception. -/
theorem C10_exception_outputs_uncounted_witness :
    ([WorkerOutput.exn "CancelledError"] : List WorkerOutput).length = 1 ∧
    WorkerOutput.exn "CancelledError" ∈ ([WorkerOutput.exn "CancelledError"] : List WorkerOutput) ∧
    ((cumulative_batch_result 3 1 5 [WorkerOutput.exn "CancelledError"]).successful +
        (cumulative_batch_result 3 1 5 [WorkerOutput.exn "CancelledError"]).failed =
        (([WorkerOutput.exn "CancelledError"] : List WorkerOutput).filter
          WorkerOutput.isRes).length ∧
      (cumulative_batch_result 3 1 5 [WorkerOutput.exn "CancelledError"]).successful +
        (cumulative_batch_result 3 1 5 [WorkerOutput.exn "CancelledError"]).failed < 1) := by
  refine ⟨rfl, List.mem_singleton.mpr rfl, ?_⟩
  exact C10_exception_outputs_uncounted 3 1 5 _ rfl "CancelledError"
    (List.mem_singleton.mpr rfl)

/-! ### C6: which fields each appended BatchResult actually carries -/

/-- C6 counterexample: a concrete cumulative run appends a `BatchResult`
to the history that carries **no** aggregated latency statistics and no
batch duration — those keys are absent from the cumulative batch dict —
refuting the claim that every appended `BatchResult` in both modes
contains them. -/
theorem C6_counterexample :
    (cumulative_run "ws" (fun _ _ => perfectEnv) 1 1 1 90).1.map
      (fun r => (r.batch, r.avg_response, r.min_response, r.max_response, r.duration)) =
      [(1, none, none, none, none)] := by
  with_unfolding_all decide

/-- C6 amended: every `BatchResult` appended in independent mode carries
the attempted count, aggregated latency statistics and the batch duration
(alongside batch number, successful/failed counts and success rate), while
every `BatchResult` appended in cumulative mode carries the new and
cumulative total connection counts but no latency statistics and no
duration. -/
theorem C6_amended_history_fields (url : String) (envs cenvs : Nat → Nat → NetEnv)
    (durs : Nat → ℚ) (start maxC inc : Nat) (thr : ℚ) :
    (∀ r ∈ (progression_run url envs durs start maxC inc thr).1,
      r.connections.isSome = true ∧ r.avg_response.isSome = true ∧
      r.min_response.isSome = true ∧ r.max_response.isSome = true ∧
      r.duration.isSome = true ∧ r.results.isSome = true) ∧
    (∀ r ∈ (cumulative_run url cenvs start maxC inc thr).1,
      r.new_connections.isSome = true ∧ r.total_connections.isSome = true ∧
      r.avg_response = none ∧ r.min_response = none ∧ r.max_response = none ∧
      r.duration = none ∧ r.connections = none ∧ r.results = none) := by
  constructor
  · intro r hr
    obtain ⟨n, bn, heq⟩ := progLoop_mem_shape url envs durs maxC inc thr _ _ _ _ r hr
    subst heq
    exact ⟨rfl, rfl, rfl, rfl, rfl, rfl⟩
  · intro r hr
    obtain ⟨bn, nn, tot2, outs, heq, _, _⟩ :=
      cumLoop_mem_shape url cenvs start maxC inc thr _ _ _ _ _ r hr
    subst heq
    exact ⟨rfl, rfl, rfl, rfl, rfl, rfl, rfl, rfl⟩

/-- Witness for the amended C6 on a concrete one-batch run of each mode. -/
theorem C6_amended_history_fields_witness :
    (run_batch_test 1 1 "ws" (fun _ => perfectEnv) 5 ∈
      (progression_run "ws" (fun _ _ => perfectEnv) (fun _ => 5) 1 1 1 90).1) ∧
    ((run_batch_test 1 1 "ws" (fun _ => perfectEnv) 5).connections.isSome = true ∧
      (run_batch_test 1 1 "ws" (fun _ => perfectEnv) 5).avg_response.isSome = true ∧
      (run_batch_test 1 1 "ws" (fun _ => perfectEnv) 5).min_response.isSome = true ∧
      (run_batch_test 1 1 "ws" (fun _ => perfectEnv) 5).max_response.isSome = true ∧
      (run_batch_test 1 1 "ws" (fun _ => perfectEnv) 5).duration.isSome = true ∧
      (run_batch_test 1 1 "ws" (fun _ => perfectEnv) 5).results.isSome = true) ∧
    (cumulative_batch_result 1 1 1 [WorkerOutput.res (test_connection 0 "ws" 1 perfectEnv)] ∈
      (cumulative_run "ws" (fun _ _ => perfectEnv) 1 1 1 90).1) ∧
    ((cumulative_batch_result 1 1 1
        [WorkerOutput.res (test_connection 0 "ws" 1 perfectEnv)]).new_connections.isSome = true ∧
      (cumulative_batch_result 1 1 1
        [WorkerOutput.res (test_connection 0 "ws" 1 perfectEnv)]).total_connections.isSome = true ∧
      (cumulative_batch_result 1 1 1
        [WorkerOutput.res (test_connection 0 "ws" 1 perfectEnv)]).avg_response = none ∧
      (cumulative_batch_result 1 1 1
        [WorkerOutput.res (test_connection 0 "ws" 1 perfectEnv)]).min_response = none ∧
      (cumulative_batch_result 1 1 1
        [WorkerOutput.res (test_connection 0 "ws" 1 perfectEnv)]).max_response = none ∧
      (cumulative_batch_result 1 1 1
        [WorkerOutput.res (test_connection 0 "ws" 1 perfectEnv)]).duration = none ∧
      (cumulative_batch_result 1 1 1
        [WorkerOutput.res (test_connection 0 "ws" 1 perfectEnv)]).connections = none ∧
      (cumulative_batch_result 1 1 1
        [WorkerOutput.res (test_connection 0 "ws" 1 perfectEnv)]).results = none) := by
  have hm1 : run_batch_test 1 1 "ws" (fun _ => perfectEnv) 5 ∈
      (progression_run "ws" (fun _ _ => perfectEnv) (fun _ => 5) 1 1 1 90).1 := by
    with_unfolding_all decide
  have hm2 : cumulative_batch_result 1 1 1
      [WorkerOutput.res (test_connection 0 "ws" 1 perfectEnv)] ∈
      (cumulative_run "ws" (fun _ _ => perfectEnv) 1 1 1 90).1 := by
    with_unfolding_all decide
  refine ⟨hm1, ?_, hm2, ?_⟩
  · exact (C6_amended_history_fields "ws" (fun _ _ => perfectEnv) (fun _ _ => perfectEnv)
      (fun _ => 5) 1 1 1 90).1 _ hm1
  · exact (C6_amended_history_fields "ws" (fun _ _ => perfectEnv) (fun _ _ => perfectEnv)
      (fun _ => 5) 1 1 1 90).2 _ hm2

/-! ### Characterization of the Python max/min over Nat lists -/

theorem foldl_max_nat_init_le (xs : List Nat) (a : Nat) : a ≤ xs.foldl max a := by
  induction xs generalizing a with
  | nil => simp
  | cons x xs ih => exact le_trans (le_max_left a x) (ih (max a x))

theorem foldl_max_nat_mem_le (xs : List Nat) (a x : Nat) (hx : x ∈ xs) :
    x ≤ xs.foldl max a := by
  induction xs generalizing a with
  | nil => cases hx
  | cons y ys ih =>
    rcases List.mem_cons.mp hx with h | h
    · subst h
      exact le_trans (le_max_right a x) (foldl_max_nat_init_le ys (max a x))
    · exact ih (max a y) h

theorem foldl_max_nat_mem (xs : List Nat) (a : Nat) : xs.foldl max a ∈ a :: xs := by
  induction xs generalizing a with
  | nil => simp
  | cons x xs ih =>
    simp only [List.foldl_cons]
    have h := ih (max a x)
    rcases List.mem_cons.mp h with h | h
    · rw [h]
      rcases max_choice a x with hc | hc <;> rw [hc] <;> simp
    · exact List.mem_cons.mpr (Or.inr (List.mem_cons.mpr (Or.inr h)))

theorem foldl_min_nat_le_init (xs : List Nat) (a : Nat) : xs.foldl min a ≤ a := by
  induction xs generalizing a with
  | nil => simp
  | cons x xs ih => exact le_trans (ih (min a x)) (min_le_left a x)

theorem foldl_min_nat_le_mem (xs : List Nat) (a x : Nat) (hx : x ∈ xs) :
    xs.foldl min a ≤ x := by
  induction xs generalizing a with
  | nil => cases hx
  | cons y ys ih =>
    rcases List.mem_cons.mp hx with h | h
    · subst h
      exact le_trans (foldl_min_nat_le_init ys (min a x)) (min_le_right a x)
    · exact ih (min a y) h

theorem foldl_min_nat_mem (xs : List Nat) (a : Nat) : xs.foldl min a ∈ a :: xs := by
  induction xs generalizing a with
  | nil => simp
  | cons x xs ih =>
    simp only [List.foldl_cons]
    have h := ih (min a x)
    rcases List.mem_cons.mp h with h | h
    · rw [h]
      rcases min_choice a x with hc | hc <;> rw [hc] <;> simp
    · exact List.mem_cons.mpr (Or.inr (List.mem_cons.mpr (Or.inr h)))

/-- Python `max(l)` is determined by any member that is an upper bound. -/
theorem listMaxNat_eq (l : List Nat) (M : Nat) (hM : M ∈ l) (hub : ∀ x ∈ l, x ≤ M) :
    listMaxNat l = M := by
  cases l with
  | nil => cases hM
  | cons x xs =>
    apply le_antisymm
    · exact hub _ (foldl_max_nat_mem xs x)
    · rcases List.mem_cons.mp hM with h | h
      · rw [h]; exact foldl_max_nat_init_le xs x
      · exact foldl_max_nat_mem_le xs x M h

/-- Python `min(l)` is determined by any member that is a lower bound. -/
theorem listMinNat_eq (l : List Nat) (m : Nat) (hm : m ∈ l) (hlb : ∀ x ∈ l, m ≤ x) :
    listMinNat l = m := by
  cases l with
  | nil => cases hm
  | cons x xs =>
    apply le_antisymm
    · rcases List.mem_cons.mp hm with h | h
      · rw [h]; exact foldl_min_nat_le_init xs x
      · exact foldl_min_nat_le_mem xs x m h
    · exact hlb _ (foldl_min_nat_mem xs x)

/-! ### C2: the ceiling / open-range verdict of the stability analysis -/

/-- C2: in either mode, when the batch history has at least one stable and
at least one unstable batch, the analysis reports the single practical
ceiling `max_stable` when `min_unstable - max_stable ≤ increment` and the
open range `[max_stable, min_unstable]` otherwise, where `max_stable` is
the highest connection count among stable batches and `min_unstable` the
lowest among unstable ones; in particular `max_stable = 8`,
`min_unstable = 10`, `increment = 2` yields ceiling 8, while
`max_stable = 8`, `min_unstable = 20`, `increment = 2` yields the open
range `[8, 20]`. -/
theorem C2_stability_analysis (thr : ℚ) (inc : Nat) :
    (∀ (hist : List BatchResult) (M m : Nat),
      M ∈ (hist.filter (fun r => thr ≤ r.success_rate)).map
        (fun r => r.connections.getD 0) →
      (∀ c ∈ (hist.filter (fun r => thr ≤ r.success_rate)).map
        (fun r => r.connections.getD 0), c ≤ M) →
      m ∈ (hist.filter (fun r => r.success_rate < thr)).map
        (fun r => r.connections.getD 0) →
      (∀ c ∈ (hist.filter (fun r => r.success_rate < thr)).map
        (fun r => r.connections.getD 0), m ≤ c) →
      analyze_independent thr inc hist =
        if (m : ℤ) - (M : ℤ) ≤ (inc : ℤ) then Verdict.ceiling M
        else Verdict.range M m) ∧
    (∀ (hist : List BatchResult) (M m : Nat),
      M ∈ (hist.filter (fun r => thr ≤ r.success_rate)).map
        (fun r => r.total_connections.getD 0) →
      (∀ c ∈ (hist.filter (fun r => thr ≤ r.success_rate)).map
        (fun r => r.total_connections.getD 0), c ≤ M) →
      m ∈ (hist.filter (fun r => r.success_rate < thr)).map
        (fun r => r.total_connections.getD 0) →
      (∀ c ∈ (hist.filter (fun r => r.success_rate < thr)).map
        (fun r => r.total_connections.getD 0), m ≤ c) →
      analyze_cumulative thr inc hist =
        if (m : ℤ) - (M : ℤ) ≤ (inc : ℤ) then Verdict.ceiling M
        else Verdict.range M m) ∧
    analyze_independent 90 2 [stableBatch8, unstableBatch10] = Verdict.ceiling 8 ∧
    analyze_independent 90 2 [stableBatch8, unstableBatch20] = Verdict.range 8 20 ∧
    analyze_cumulative 90 2 [stableBatch8, unstableBatch10] = Verdict.ceiling 8 ∧
    analyze_cumulative 90 2 [stableBatch8, unstableBatch20] = Verdict.range 8 20 := by
  refine ⟨?_, ?_, by decide, by decide, by decide, by decide⟩
  · intro hist M m hMm hMu hmm hml
    have hsne : ¬ (hist.filter (fun r => thr ≤ r.success_rate)).isEmpty = true := by
      intro h
      rw [List.isEmpty_iff.mp h] at hMm
      cases hMm
    have hune : ¬ (hist.filter (fun r => r.success_rate < thr)).isEmpty = true := by
      intro h
      rw [List.isEmpty_iff.mp h] at hmm
      cases hmm
    simp only [analyze_independent]
    rw [if_pos hune, if_pos hsne,
      listMaxNat_eq _ M hMm hMu, listMinNat_eq _ m hmm hml]
  · intro hist M m hMm hMu hmm hml
    have hsne : ¬ (hist.filter (fun r => thr ≤ r.success_rate)).isEmpty = true := by
      intro h
      rw [List.isEmpty_iff.mp h] at hMm
      cases hMm
    have hune : ¬ (hist.filter (fun r => r.success_rate < thr)).isEmpty = true := by
      intro h
      rw [List.isEmpty_iff.mp h] at hmm
      cases hmm
    simp only [analyze_cumulative]
    rw [if_pos hune, if_pos hsne,
      listMaxNat_eq _ M hMm hMu, listMinNat_eq _ m hmm hml]

/-- Witness for C2 at the concrete 8-stable / 10-unstable history. -/
theorem C2_stability_analysis_witness :
    ((8 : Nat) ∈ (([stableBatch8, unstableBatch10].filter
        (fun r => (90:ℚ) ≤ r.success_rate)).map (fun r => r.connections.getD 0)) ∧
      (∀ c ∈ (([stableBatch8, unstableBatch10].filter
        (fun r => (90:ℚ) ≤ r.success_rate)).map (fun r => r.connections.getD 0)), c ≤ 8) ∧
      (10 : Nat) ∈ (([stableBatch8, unstableBatch10].filter
        (fun r => r.success_rate < (90:ℚ))).map (fun r => r.connections.getD 0)) ∧
      (∀ c ∈ (([stableBatch8, unstableBatch10].filter
        (fun r => r.success_rate < (90:ℚ))).map (fun r => r.connections.getD 0)), 10 ≤ c)) ∧
    analyze_independent 90 2 [stableBatch8, unstableBatch10] =
      (if ((10 : Nat) : ℤ) - ((8 : Nat) : ℤ) ≤ ((2 : Nat) : ℤ) then Verdict.ceiling 8
        else Verdict.range 8 10) := by
  refine ⟨⟨by decide, by decide, by decide, by decide⟩, ?_⟩
  exact (C2_stability_analysis 90 2).1 [stableBatch8, unstableBatch10] 8 10
    (by decide) (by decide) (by decide) (by decide)

/-! ### C9: termination-event lifecycle -/

theorem runSigOps_append (s : List Bool) (a b : List SigOp) :
    runSigOps s (a ++ b) = runSigOps (runSigOps s a) b := by
  simp [runSigOps, List.foldl_append]

/-- No event operation ever clears a set event: `Event()` allocation only
appends, `event.set()` only writes `true`. -/
theorem applySigOp_monotone (s : List Bool) (op : SigOp) (i : Nat)
    (h : s[i]? = some true) : (applySigOp s op)[i]? = some true := by
  have hi : i < s.length := by
    by_contra hni
    rw [List.getElem?_eq_none (by omega)] at h
    cases h
  cases op with
  | newEvent =>
    show (s ++ [false])[i]? = some true
    rw [List.getElem?_append_left hi]
    exact h
  | setEvent j =>
    show (s.set j true)[i]? = some true
    rcases eq_or_ne i j with rfl | hij
    · rw [List.getElem?_set_self hi]
    · rw [List.getElem?_set_ne (Ne.symm hij)]
      exact h

theorem runSigOps_monotone (ops : List SigOp) :
    ∀ (s : List Bool) (i : Nat), s[i]? = some true →
      (runSigOps s ops)[i]? = some true := by
  induction ops with
  | nil => intro s i h; exact h
  | cons op ops ih =>
    intro s i h
    exact ih (applySigOp s op) i (applySigOp_monotone s op i h)

theorem setIndices_all_true (J : List Nat) :
    ∀ (s : List Bool) (i : Nat), i ∈ J → i < s.length →
      (runSigOps s (J.map SigOp.setEvent))[i]? = some true := by
  induction J with
  | nil => intro s i h _; cases h
  | cons j J ih =>
    intro s i hij hi
    show (runSigOps (applySigOp s (SigOp.setEvent j)) (J.map SigOp.setEvent))[i]? = some true
    rcases List.mem_cons.mp hij with rfl | h
    · apply runSigOps_monotone
      show (s.set i true)[i]? = some true
      rw [List.getElem?_set_self hi]
    · exact ih (s.set j true) i h (by simpa using hi)

theorem runSigOps_sets_length (J : List Nat) :
    ∀ s : List Bool, (runSigOps s (J.map SigOp.setEvent)).length = s.length := by
  induction J with
  | nil => intro s; rfl
  | cons j J ih =>
    intro s
    show (runSigOps (applySigOp s (SigOp.setEvent j)) (J.map SigOp.setEvent)).length = s.length
    rw [ih]
    simp [applySigOp]

theorem cumBatchOps_length (n : Nat) :
    ∀ s : List Bool,
      (runSigOps s (((List.range n).map
        (fun b => [SigOp.newEvent, SigOp.setEvent b])).flatten)).length =
        s.length + n := by
  induction n with
  | zero => intro s; rfl
  | succ n ih =>
    intro s
    rw [List.range_succ, List.map_append, List.flatten_append, runSigOps_append]
    simp only [List.map_cons, List.map_nil, List.flatten_cons, List.flatten_nil,
      List.append_nil]
    show ((runSigOps s (((List.range n).map
        (fun b => [SigOp.newEvent, SigOp.setEvent b])).flatten) ++ [false]).set n
        true).length = s.length + (n + 1)
    rw [List.length_set, List.length_append, ih s]
    simp
    omega

/-- C9: a termination event only ever transitions from unset to set —
no operation of the run reverses a set event — and at the end of a
cumulative run of `n` batches the event pool holds one event per batch,
every one of them set; moreover the run-end cleanup alone
(`for event in all_end_events: event.set()`) sets every event whatever
state the pool is in, so any still-unset event is released there. -/
theorem C9_signal_lifecycle :
    (∀ (s : List Bool) (op : SigOp) (i : Nat),
      s[i]? = some true → (applySigOp s op)[i]? = some true) ∧
    (∀ (s : List Bool) (i : Nat), i < s.length →
      (closeAllEvents s)[i]? = some true) ∧
    (∀ n : Nat, (runSigOps [] (cumSigOps n)).length = n ∧
      ∀ i < n, (runSigOps [] (cumSigOps n))[i]? = some true) := by
  refine ⟨applySigOp_monotone, ?_, ?_⟩
  · intro s i hi
    exact setIndices_all_true (List.range s.length) s i (List.mem_range.mpr hi) hi
  · intro n
    have hsplit : runSigOps [] (cumSigOps n) =
        runSigOps (runSigOps [] (((List.range n).map
          (fun b => [SigOp.newEvent, SigOp.setEvent b])).flatten))
          ((List.range n).map SigOp.setEvent) := by
      simp only [cumSigOps, runSigOps_append]
    have hlen : (runSigOps [] (((List.range n).map
        (fun b => [SigOp.newEvent, SigOp.setEvent b])).flatten)).length = n := by
      simpa using cumBatchOps_length n []
    constructor
    · rw [hsplit, runSigOps_sets_length, hlen]
    · intro i hi
      rw [hsplit]
      exact setIndices_all_true (List.range n) _ i (List.mem_range.mpr hi)
        (by rw [hlen]; exact hi)

/-- Witness for C9 at concrete event pools and a two-batch run. -/
theorem C9_signal_lifecycle_witness :
    (([true] : List Bool)[0]? = some true ∧
      (applySigOp [true] SigOp.newEvent)[0]? = some true) ∧
    ((0 < ([false] : List Bool).length) ∧
      (closeAllEvents [false])[0]? = some true) ∧
    ((runSigOps [] (cumSigOps 2)).length = 2 ∧
      ∀ i < 2, (runSigOps [] (cumSigOps 2))[i]? = some true) := by
  refine ⟨⟨rfl, ?_⟩, ⟨by decide, ?_⟩, ?_⟩
  · exact C9_signal_lifecycle.1 [true] SigOp.newEvent 0 rfl
  · exact C9_signal_lifecycle.2.1 [false] 0 (by decide)
  · exact C9_signal_lifecycle.2.2 2

/-! ### The early-stop rule of the progression loops -/

/-- The non-cumulative loop sets its early-stop flag exactly when its last
recorded batch is unstable and a stable batch was seen before it (or was
already recorded in `last_stable_batch` on entry). -/
theorem progLoop_early_iff (url : String) (envs : Nat → Nat → NetEnv) (durs : Nat → ℚ)
    (maxC inc : Nat) (thr : ℚ) :
    ∀ fuel b cur ls,
      ((progLoop url envs durs maxC inc thr fuel b cur ls).2 = true ↔
        ∃ r, (progLoop url envs durs maxC inc thr fuel b cur ls).1.getLast? = some r ∧
          r.success_rate < thr ∧
          (ls.isSome = true ∨
            ∃ s ∈ (progLoop url envs durs maxC inc thr fuel b cur ls).1.dropLast,
              thr ≤ s.success_rate)) := by
  intro fuel
  induction fuel with
  | zero =>
    intro b cur ls
    simp [progLoop]
  | succ fuel ih =>
    intro b cur ls
    by_cases hcur : cur ≤ maxC
    · simp only [progLoop, if_pos hcur]
      set br := run_batch_test cur b url (envs b) (durs b) with hbr
      by_cases hth : thr ≤ br.success_rate
      · rw [if_pos hth]
        have iht := ih (b + 1) (cur + inc) (some br)
        set t := progLoop url envs durs maxC inc thr fuel (b + 1) (cur + inc) (some br)
          with ht
        simp only [Option.isSome_some, true_or, and_true] at iht
        show t.2 = true ↔
          ∃ r, (br :: t.1).getLast? = some r ∧ r.success_rate < thr ∧
            (ls.isSome = true ∨ ∃ s ∈ (br :: t.1).dropLast, thr ≤ s.success_rate)
        cases htl : t.1 with
        | nil =>
          rw [htl] at iht
          have ht2 : ¬ t.2 = true := by
            intro h
            obtain ⟨r, hr, _⟩ := iht.mp h
            simp at hr
          constructor
          · intro h
            exact absurd h ht2
          · rintro ⟨r, hr, hrlt, -⟩
            have hbrr : br = r := by simpa using hr
            rw [← hbrr] at hrlt
            exact absurd hth (not_le.mpr hrlt)
        | cons x xs =>
          rw [htl] at iht
          rw [List.getLast?_cons_cons, List.dropLast_cons₂, iht]
          constructor
          · rintro ⟨r, hr, hrlt⟩
            exact ⟨r, hr, hrlt, Or.inr ⟨br, List.mem_cons_self br _, hth⟩⟩
          · rintro ⟨r, hr, hrlt, -⟩
            exact ⟨r, hr, hrlt⟩
      · rw [if_neg hth]
        cases ls with
        | some lsb =>
          show true = true ↔
            ∃ r, ([br] : List BatchResult).getLast? = some r ∧ r.success_rate < thr ∧
              ((some lsb).isSome = true ∨
                ∃ s ∈ ([br] : List BatchResult).dropLast, thr ≤ s.success_rate)
          constructor
          · intro _
            exact ⟨br, by simp, not_le.mp hth, Or.inl rfl⟩
          · intro _
            rfl
        | none =>
          have iht := ih (b + 1) (cur + inc) none
          set t := progLoop url envs durs maxC inc thr fuel (b + 1) (cur + inc) none
            with ht
          simp only [Option.isSome_none, Bool.false_eq_true, false_or] at iht
          show t.2 = true ↔
            ∃ r, (br :: t.1).getLast? = some r ∧ r.success_rate < thr ∧
              ((none : Option BatchResult).isSome = true ∨
                ∃ s ∈ (br :: t.1).dropLast, thr ≤ s.success_rate)
          simp only [Option.isSome_none, Bool.false_eq_true, false_or]
          cases htl : t.1 with
          | nil =>
            rw [htl] at iht
            have ht2 : ¬ t.2 = true := by
              intro h
              obtain ⟨r, hr, _⟩ := iht.mp h
              simp at hr
            constructor
            · intro h
              exact absurd h ht2
            · rintro ⟨r, hr, hrlt, s, hs, hsth⟩
              simp at hs
          | cons x xs =>
            rw [htl] at iht
            rw [List.getLast?_cons_cons, List.dropLast_cons₂, iht]
            constructor
            · rintro ⟨r, hr, hrlt, s, hs, hsth⟩
              exact ⟨r, hr, hrlt, s, List.mem_cons_of_mem br hs, hsth⟩
            · rintro ⟨r, hr, hrlt, s, hs, hsth⟩
              rcases List.mem_cons.mp hs with h | h
              · rw [h] at hsth
                exact absurd hsth hth
              · exact ⟨r, hr, hrlt, s, h, hsth⟩
    · simp [progLoop, if_neg hcur]

/-- The cumulative loop sets its early-stop flag exactly when its last
recorded batch is unstable and a stable batch was seen before it (or was
already recorded in `last_stable_batch` on entry). -/
theorem cumLoop_early_iff (url : String) (envs : Nat → Nat → NetEnv)
    (start maxC inc : Nat) (thr : ℚ) :
    ∀ fuel b cur tot ls,
      ((cumLoop url envs start maxC inc thr fuel b cur tot ls).2 = true ↔
        ∃ r, (cumLoop url envs start maxC inc thr fuel b cur tot ls).1.getLast? = some r ∧
          r.success_rate < thr ∧
          (ls.isSome = true ∨
            ∃ s ∈ (cumLoop url envs start maxC inc thr fuel b cur tot ls).1.dropLast,
              thr ≤ s.success_rate)) := by
  intro fuel
  induction fuel with
  | zero =>
    intro b cur tot ls
    simp [cumLoop]
  | succ fuel ih =>
    intro b cur tot ls
    by_cases hcur : cur ≤ maxC
    · simp only [cumLoop, if_pos hcur]
      set nn := if b = 1 then start else inc with hnn
      set br := cumulative_batch_result b nn (tot + nn)
        ((List.range nn).map (fun i => WorkerOutput.res
          (test_connection (tot + nn - nn + i) url b (envs b i)))) with hbr
      by_cases hth : thr ≤ br.success_rate
      · rw [if_pos hth]
        have iht := ih (b + 1) (cur + inc) (tot + nn) (some br)
        set t := cumLoop url envs start maxC inc thr fuel (b + 1) (cur + inc)
          (tot + nn) (some br) with ht
        simp only [Option.isSome_some, true_or, and_true] at iht
        show t.2 = true ↔
          ∃ r, (br :: t.1).getLast? = some r ∧ r.success_rate < thr ∧
            (ls.isSome = true ∨ ∃ s ∈ (br :: t.1).dropLast, thr ≤ s.success_rate)
        cases htl : t.1 with
        | nil =>
          rw [htl] at iht
          have ht2 : ¬ t.2 = true := by
            intro h
            obtain ⟨r, hr, _⟩ := iht.mp h
            simp at hr
          constructor
          · intro h
            exact absurd h ht2
          · rintro ⟨r, hr, hrlt, -⟩
            have hbrr : br = r := by simpa using hr
            rw [← hbrr] at hrlt
            exact absurd hth (not_le.mpr hrlt)
        | cons x xs =>
          rw [htl] at iht
          rw [List.getLast?_cons_cons, List.dropLast_cons₂, iht]
          constructor
          · rintro ⟨r, hr, hrlt⟩
            exact ⟨r, hr, hrlt, Or.inr ⟨br, List.mem_cons_self br _, hth⟩⟩
          · rintro ⟨r, hr, hrlt, -⟩
            exact ⟨r, hr, hrlt⟩
      · rw [if_neg hth]
        cases ls with
        | some lsb =>
          show true = true ↔
            ∃ r, ([br] : List BatchResult).getLast? = some r ∧ r.success_rate < thr ∧
              ((some lsb).isSome = true ∨
                ∃ s ∈ ([br] : List BatchResult).dropLast, thr ≤ s.success_rate)
          constructor
          · intro _
            exact ⟨br, by simp, not_le.mp hth, Or.inl rfl⟩
          · intro _
            rfl
        | none =>
          have iht := ih (b + 1) (cur + inc) (tot + nn) none
          set t := cumLoop url envs start maxC inc thr fuel (b + 1) (cur + inc)
            (tot + nn) none with ht
          simp only [Option.isSome_none, Bool.false_eq_true, false_or] at iht
          show t.2 = true ↔
            ∃ r, (br :: t.1).getLast? = some r ∧ r.success_rate < thr ∧
              ((none : Option BatchResult).isSome = true ∨
                ∃ s ∈ (br :: t.1).dropLast, thr ≤ s.success_rate)
          simp only [Option.isSome_none, Bool.false_eq_true, false_or]
          cases htl : t.1 with
          | nil =>
            rw [htl] at iht
            have ht2 : ¬ t.2 = true := by
              intro h
              obtain ⟨r, hr, _⟩ := iht.mp h
              simp at hr
            constructor
            · intro h
              exact absurd h ht2
            · rintro ⟨r, hr, hrlt, s, hs, hsth⟩
              simp at hs
          | cons x xs =>
            rw [htl] at iht
            rw [List.getLast?_cons_cons, List.dropLast_cons₂, iht]
            constructor
            · rintro ⟨r, hr, hrlt, s, hs, hsth⟩
              exact ⟨r, hr, hrlt, s, List.mem_cons_of_mem br hs, hsth⟩
            · rintro ⟨r, hr, hrlt, s, hs, hsth⟩
              rcases List.mem_cons.mp hs with h | h
              · rw [h] at hsth
                exact absurd hsth hth
              · exact ⟨r, hr, hrlt, s, h, hsth⟩
    · simp [cumLoop, if_neg hcur]

/-- If every batch of a non-cumulative run (entered with no stable batch
recorded) is unstable, the run never stops early and visits every target
count of the `while` loop. -/
theorem progLoop_all_unstable (url : String) (envs : Nat → Nat → NetEnv)
    (durs : Nat → ℚ) (maxC inc : Nat) (thr : ℚ) :
    ∀ fuel b cur,
      (∀ r ∈ (progLoop url envs durs maxC inc thr fuel b cur none).1,
        r.success_rate < thr) →
      (progLoop url envs durs maxC inc thr fuel b cur none).2 = false ∧
      (progLoop url envs durs maxC inc thr fuel b cur none).1.map
        (fun r => r.connections.getD 0) = targetSteps maxC inc fuel cur := by
  intro fuel
  induction fuel with
  | zero =>
    intro b cur h
    simp [progLoop, targetSteps]
  | succ fuel ih =>
    intro b cur h
    by_cases hcur : cur ≤ maxC
    · simp only [progLoop, if_pos hcur] at h ⊢
      set br := run_batch_test cur b url (envs b) (durs b) with hbr
      by_cases hth : thr ≤ br.success_rate
      · rw [if_pos hth] at h
        exact absurd (h br (List.mem_cons_self _ _)) (not_lt.mpr hth)
      · rw [if_neg hth] at h ⊢
        have h' : ∀ r ∈ (progLoop url envs durs maxC inc thr fuel (b + 1) (cur + inc)
            none).1, r.success_rate < thr := by
          intro r hr
          exact h r (List.mem_cons_of_mem br hr)
        obtain ⟨ih1, ih2⟩ := ih (b + 1) (cur + inc) h'
        refine ⟨ih1, ?_⟩
        show (br :: (progLoop url envs durs maxC inc thr fuel (b + 1) (cur + inc)
          none).1).map (fun r => r.connections.getD 0) =
          targetSteps maxC inc (fuel + 1) cur
        rw [List.map_cons, ih2]
        simp only [targetSteps, if_pos hcur]
        rfl
    · simp [progLoop, targetSteps, if_neg hcur]

/-- If every batch of a cumulative run (entered with no stable batch
recorded) is unstable, the run never stops early and runs one batch per
target count of the `while` loop. -/
theorem cumLoop_all_unstable (url : String) (envs : Nat → Nat → NetEnv)
    (start maxC inc : Nat) (thr : ℚ) :
    ∀ fuel b cur tot,
      (∀ r ∈ (cumLoop url envs start maxC inc thr fuel b cur tot none).1,
        r.success_rate < thr) →
      (cumLoop url envs start maxC inc thr fuel b cur tot none).2 = false ∧
      (cumLoop url envs start maxC inc thr fuel b cur tot none).1.length =
        (targetSteps maxC inc fuel cur).length := by
  intro fuel
  induction fuel with
  | zero =>
    intro b cur tot h
    simp [cumLoop, targetSteps]
  | succ fuel ih =>
    intro b cur tot h
    by_cases hcur : cur ≤ maxC
    · simp only [cumLoop, if_pos hcur] at h ⊢
      set nn := if b = 1 then start else inc with hnn
      set br := cumulative_batch_result b nn (tot + nn)
        ((List.range nn).map (fun i => WorkerOutput.res
          (test_connection (tot + nn - nn + i) url b (envs b i)))) with hbr
      by_cases hth : thr ≤ br.success_rate
      · rw [if_pos hth] at h
        exact absurd (h br (List.mem_cons_self _ _)) (not_lt.mpr hth)
      · rw [if_neg hth] at h ⊢
        have h' : ∀ r ∈ (cumLoop url envs start maxC inc thr fuel (b + 1) (cur + inc)
            (tot + nn) none).1, r.success_rate < thr := by
          intro r hr
          exact h r (List.mem_cons_of_mem br hr)
        obtain ⟨ih1, ih2⟩ := ih (b + 1) (cur + inc) (tot + nn) h'
        refine ⟨ih1, ?_⟩
        show (br :: (cumLoop url envs start maxC inc thr fuel (b + 1) (cur + inc)
          (tot + nn) none).1).length = (targetSteps maxC inc (fuel + 1) cur).length
        rw [List.length_cons, ih2]
        simp only [targetSteps, if_pos hcur]
        rfl
    · simp [cumLoop, targetSteps, if_neg hcur]

/-- With a positive increment and enough fuel, the target steps are
exactly the counts `cur + k·inc` that do not exceed the maximum. -/
theorem targetSteps_mem (maxC inc : Nat) (hinc : 0 < inc) :
    ∀ fuel cur c, maxC + 1 - cur ≤ fuel →
      (c ∈ targetSteps maxC inc fuel cur ↔ ∃ k, c = cur + k * inc ∧ c ≤ maxC) := by
  intro fuel
  induction fuel with
  | zero =>
    intro cur c hf
    simp only [targetSteps, List.not_mem_nil, false_iff]
    rintro ⟨k, hc, hcle⟩
    have hcc : cur ≤ c := by
      rw [hc]
      exact Nat.le_add_right _ _
    omega
  | succ fuel ih =>
    intro cur c hf
    by_cases hcur : cur ≤ maxC
    · simp only [targetSteps, if_pos hcur, List.mem_cons]
      constructor
      · rintro (rfl | hmem)
        · exact ⟨0, by simp, hcur⟩
        · obtain ⟨k, hc, hcle⟩ := (ih (cur + inc) c (by omega)).mp hmem
          refine ⟨k + 1, ?_, hcle⟩
          rw [hc]
          ring
      · rintro ⟨k, hc, hcle⟩
        cases k with
        | zero =>
          left
          simpa using hc
        | succ k =>
          right
          apply (ih (cur + inc) c (by omega)).mpr
          refine ⟨k, ?_, hcle⟩
          rw [hc]
          ring
    · simp only [targetSteps, if_neg hcur, List.not_mem_nil, false_iff]
      rintro ⟨k, hc, hcle⟩
      have hcc : cur ≤ c := by
        rw [hc]
        exact Nat.le_add_right _ _
      omega

/-! ### C1: the stop rule of the progression controller -/

/-- C1: in either mode, the run stops early after a batch iff that batch's
success rate is strictly below the threshold and an earlier batch of the
run was stable (success rate ≥ threshold, inclusive comparison).  When no
batch is ever stable the run never stops early: the non-cumulative history
visits exactly the target counts of the `while` loop (all the counts
`start + k·inc ≤ max`), and the cumulative history runs exactly one batch
per such target count. -/
theorem C1_stop_rule (url : String) (envs cenvs : Nat → Nat → NetEnv) (durs : Nat → ℚ)
    (start maxC inc : Nat) (thr : ℚ) (hinc : 0 < inc) :
    ((progression_run url envs durs start maxC inc thr).2 = true ↔
      ∃ r, (progression_run url envs durs start maxC inc thr).1.getLast? = some r ∧
        r.success_rate < thr ∧
        ∃ s ∈ (progression_run url envs durs start maxC inc thr).1.dropLast,
          thr ≤ s.success_rate) ∧
    ((∀ r ∈ (progression_run url envs durs start maxC inc thr).1,
        r.success_rate < thr) →
      (progression_run url envs durs start maxC inc thr).2 = false ∧
      (progression_run url envs durs start maxC inc thr).1.map
        (fun r => r.connections.getD 0) = targetSteps maxC inc (maxC + 1) start) ∧
    ((cumulative_run url cenvs start maxC inc thr).2 = true ↔
      ∃ r, (cumulative_run url cenvs start maxC inc thr).1.getLast? = some r ∧
        r.success_rate < thr ∧
        ∃ s ∈ (cumulative_run url cenvs start maxC inc thr).1.dropLast,
          thr ≤ s.success_rate) ∧
    ((∀ r ∈ (cumulative_run url cenvs start maxC inc thr).1, r.success_rate < thr) →
      (cumulative_run url cenvs start maxC inc thr).2 = false ∧
      (cumulative_run url cenvs start maxC inc thr).1.length =
        (targetSteps maxC inc (maxC + 1) start).length) ∧
    (∀ c, c ∈ targetSteps maxC inc (maxC + 1) start ↔
      ∃ k, c = start + k * inc ∧ c ≤ maxC) := by
  refine ⟨?_, ?_, ?_, ?_, ?_⟩
  · have h := progLoop_early_iff url envs durs maxC inc thr (maxC + 1) 1 start none
    simp only [Option.isSome_none, Bool.false_eq_true, false_or] at h
    exact h
  · intro hall
    exact progLoop_all_unstable url envs durs maxC inc thr (maxC + 1) 1 start hall
  · have h := cumLoop_early_iff url cenvs start maxC inc thr (maxC + 1) 1 start 0 none
    simp only [Option.isSome_none, Bool.false_eq_true, false_or] at h
    exact h
  · intro hall
    exact cumLoop_all_unstable url cenvs start maxC inc thr (maxC + 1) 1 start 0 hall
  · intro c
    exact targetSteps_mem maxC inc hinc (maxC + 1) start c (by omega)

/-- Witness for C1 at a concrete configuration (increment 1, counts 1..5,
threshold 90, batches 1-2 perfect and later batches failing). -/
theorem C1_stop_rule_witness :
    0 < 1 ∧
    (((progression_run "ws" envsMix (fun _ => 5) 1 5 1 90).2 = true ↔
      ∃ r, (progression_run "ws" envsMix (fun _ => 5) 1 5 1 90).1.getLast? = some r ∧
        r.success_rate < 90 ∧
        ∃ s ∈ (progression_run "ws" envsMix (fun _ => 5) 1 5 1 90).1.dropLast,
          90 ≤ s.success_rate) ∧
    ((∀ r ∈ (progression_run "ws" envsMix (fun _ => 5) 1 5 1 90).1,
        r.success_rate < 90) →
      (progression_run "ws" envsMix (fun _ => 5) 1 5 1 90).2 = false ∧
      (progression_run "ws" envsMix (fun _ => 5) 1 5 1 90).1.map
        (fun r => r.connections.getD 0) = targetSteps 5 1 (5 + 1) 1) ∧
    ((cumulative_run "ws" envsMix 1 5 1 90).2 = true ↔
      ∃ r, (cumulative_run "ws" envsMix 1 5 1 90).1.getLast? = some r ∧
        r.success_rate < 90 ∧
        ∃ s ∈ (cumulative_run "ws" envsMix 1 5 1 90).1.dropLast,
          90 ≤ s.success_rate) ∧
    ((∀ r ∈ (cumulative_run "ws" envsMix 1 5 1 90).1, r.success_rate < 90) →
      (cumulative_run "ws" envsMix 1 5 1 90).2 = false ∧
      (cumulative_run "ws" envsMix 1 5 1 90).1.length =
        (targetSteps 5 1 (5 + 1) 1).length) ∧
    (∀ c, c ∈ targetSteps 5 1 (5 + 1) 1 ↔ ∃ k, c = 1 + k * 1 ∧ c ≤ 5)) :=
  ⟨by decide, C1_stop_rule "ws" envsMix envsMix (fun _ => 5) 1 5 1 90 (by decide)⟩

/-! ### C8: cumulative increments and running totals -/

/-- Entry `k` of a cumulative history started at batch number `b` with
running total `tot` carries batch number `b + k`, the new-connection count
`start` for batch 1 and `inc` otherwise, and a cumulative total equal to
`tot` plus the sum of the recorded new-connection counts up to and
including itself. -/
theorem cumLoop_entries (url : String) (envs : Nat → Nat → NetEnv)
    (start maxC inc : Nat) (thr : ℚ) :
    ∀ fuel b cur tot ls k r,
      (cumLoop url envs start maxC inc thr fuel b cur tot ls).1[k]? = some r →
      r.batch = b + k ∧
      r.new_connections = some (if b + k = 1 then start else inc) ∧
      r.total_connections = some (tot +
        (((cumLoop url envs start maxC inc thr fuel b cur tot ls).1.take (k + 1)).map
          (fun x => x.new_connections.getD 0)).sum) := by
  intro fuel
  induction fuel with
  | zero =>
    intro b cur tot ls k r hr
    simp [cumLoop] at hr
  | succ fuel ih =>
    intro b cur tot ls k r hr
    by_cases hcur : cur ≤ maxC
    · simp only [cumLoop, if_pos hcur] at hr ⊢
      set nn := if b = 1 then start else inc with hnn
      set br := cumulative_batch_result b nn (tot + nn)
        ((List.range nn).map (fun i => WorkerOutput.res
          (test_connection (tot + nn - nn + i) url b (envs b i)))) with hbr
      have hbrb : br.batch = b := rfl
      have hbrn : br.new_connections = some nn := rfl
      have hbrt : br.total_connections = some (tot + nn) := rfl
      have hhead : ∀ (t1 : List BatchResult),
          br.batch = b + 0 ∧
          br.new_connections = some (if b + 0 = 1 then start else inc) ∧
          br.total_connections = some (tot +
            (((br :: t1).take (0 + 1)).map (fun x => x.new_connections.getD 0)).sum) := by
        intro t1
        refine ⟨by simpa using hbrb, by simpa [hnn] using hbrn, ?_⟩
        rw [hbrt]
        simp [hbrn]
      have htail : ∀ (ls2 : Option BatchResult) (k2 : Nat),
          (cumLoop url envs start maxC inc thr fuel (b + 1) (cur + inc)
            (tot + nn) ls2).1[k2]? = some r →
          r.batch = b + (k2 + 1) ∧
          r.new_connections = some (if b + (k2 + 1) = 1 then start else inc) ∧
          r.total_connections = some (tot +
            (((br :: (cumLoop url envs start maxC inc thr fuel (b + 1) (cur + inc)
              (tot + nn) ls2).1).take (k2 + 1 + 1)).map
                (fun x => x.new_connections.getD 0)).sum) := by
        intro ls2 k2 hr2
        obtain ⟨ih1, ih2, ih3⟩ := ih (b + 1) (cur + inc) (tot + nn) ls2 k2 r hr2
        have harith : b + 1 + k2 = b + (k2 + 1) := by omega
        refine ⟨by omega, by rw [← harith]; exact ih2, ?_⟩
        rw [ih3, List.take_succ_cons, List.map_cons, List.sum_cons]
        have hgd : br.new_connections.getD 0 = nn := by rw [hbrn]; rfl
        rw [hgd]
        congr 1
        omega
      by_cases hth : thr ≤ br.success_rate
      · rw [if_pos hth] at hr ⊢
        cases k with
        | zero =>
          rw [List.getElem?_cons_zero] at hr
          have hrbr : br = r := by simpa using hr
          rw [← hrbr]
          exact hhead _
        | succ k =>
          rw [List.getElem?_cons_succ] at hr
          exact htail (some br) k hr
      · rw [if_neg hth] at hr ⊢
        cases hls : ls with
        | some lsb =>
          rw [hls] at hr
          cases k with
          | zero =>
            rw [List.getElem?_cons_zero] at hr
            have hrbr : br = r := by simpa using hr
            rw [← hrbr]
            exact hhead []
          | succ k =>
            rw [List.getElem?_cons_succ] at hr
            simp at hr
        | none =>
          rw [hls] at hr
          cases k with
          | zero =>
            rw [List.getElem?_cons_zero] at hr
            have hrbr : br = r := by simpa using hr
            rw [← hrbr]
            exact hhead _
          | succ k =>
            rw [List.getElem?_cons_succ] at hr
            exact htail none k hr
    · simp [cumLoop, if_neg hcur] at hr

/-- C8: in a cumulative run, batch `k+1` opens `start_connections` new
connections when it is batch 1 and `connection_increment` new connections
otherwise, and the cumulative total it reports equals the sum of the
recorded new-connection counts of batches 1 through k+1. -/
theorem C8_cumulative_totals (url : String) (cenvs : Nat → Nat → NetEnv)
    (start maxC inc : Nat) (thr : ℚ) :
    ∀ k r, (cumulative_run url cenvs start maxC inc thr).1[k]? = some r →
      r.batch = k + 1 ∧
      r.new_connections = some (if k = 0 then start else inc) ∧
      r.total_connections = some
        ((((cumulative_run url cenvs start maxC inc thr).1.take (k + 1)).map
          (fun x => x.new_connections.getD 0)).sum) := by
  intro k r hr
  obtain ⟨h1, h2, h3⟩ :=
    cumLoop_entries url cenvs start maxC inc thr (maxC + 1) 1 start 0 none k r hr
  refine ⟨by omega, ?_, by simpa using h3⟩
  have hcond : (if 1 + k = 1 then start else inc) = (if k = 0 then start else inc) := by
    by_cases hk : k = 0
    · rw [if_pos hk, if_pos (by omega)]
    · rw [if_neg hk, if_neg (by omega)]
  rw [h2, hcond]

/-- Witness for C8 on a concrete one-batch cumulative run. -/
theorem C8_cumulative_totals_witness :
    ((cumulative_run "ws" (fun _ _ => perfectEnv) 1 1 1 90).1[0]? =
      some (cumulative_batch_result 1 1 1
        [WorkerOutput.res (test_connection 0 "ws" 1 perfectEnv)])) ∧
    ((cumulative_batch_result 1 1 1
        [WorkerOutput.res (test_connection 0 "ws" 1 perfectEnv)]).batch = 0 + 1 ∧
      (cumulative_batch_result 1 1 1
        [WorkerOutput.res (test_connection 0 "ws" 1 perfectEnv)]).new_connections =
        some (if 0 = 0 then 1 else 1) ∧
      (cumulative_batch_result 1 1 1
        [WorkerOutput.res (test_connection 0 "ws" 1 perfectEnv)]).total_connections =
        some ((((cumulative_run "ws" (fun _ _ => perfectEnv) 1 1 1 90).1.take (0 + 1)).map
          (fun x => x.new_connections.getD 0)).sum)) := by
  have hm : (cumulative_run "ws" (fun _ _ => perfectEnv) 1 1 1 90).1[0]? =
      some (cumulative_batch_result 1 1 1
        [WorkerOutput.res (test_connection 0 "ws" 1 perfectEnv)]) := by
    with_unfolding_all decide
  exact ⟨hm, C8_cumulative_totals "ws" (fun _ _ => perfectEnv) 1 1 1 90 0 _ hm⟩

end StressTest
